import Mathlib

/-!
# cborschema `node` package: lazy CBOR nodes, raw keys and paths

A shallow embedding of `node/cbor.go`, `node/node.go` and `node/path.go`.

* Bytes are `Fin 256`; a Go `[]byte` is `Option Bytes` (`none` is the nil slice), because
  `Node.Valid` and `Node.MarshalCBOR` tell a nil slice from an empty one.
* A Go `error` is `Option Err` (`none` is the nil error), `Err` being the message.
* A `*Node` is `Option Node` (`none` is the nil pointer). Methods that mutate their receiver
  return the receiver after the call next to their result.
* The package variables `cborValid`, `cborUnmarshal` and `cborMarshal` come from an external
  library; they are parameters (`Codec`, and the `cborMarshal` argument of `PathFrom`).
  Every function that can reach `cborUnmarshal` threads the number of calls made so far.
-/

namespace CborSchema

/-! ## Data model -/

abbrev Bytes := List (Fin 256)

/-- Go `cbor.RawMessage` (`[]byte`): `none` is the nil slice. -/
abbrev RawMessage := Option Bytes

/-- Go `error`: the message of a non-nil error. -/
abbrev Err := String

/-- Source: `type MajorType uint8`. -/
abbrev MajorType := Nat

def MajorUnsignedInt : MajorType := 0
def MajorNegativeInt : MajorType := 1
def MajorByteString : MajorType := 2
def MajorTextString : MajorType := 3
def MajorArray : MajorType := 4
def MajorMap : MajorType := 5
def MajorTag : MajorType := 6
def MajorPrimitives : MajorType := 7

/-- Source: `MajorType.String`. -/
def MajorType.String (t : MajorType) : String :=
  match t with
  | 0 => "unsigned integer"
  | 1 => "negative integer"
  | 2 => "byte string"
  | 3 => "text string"
  | 4 => "array"
  | 5 => "map"
  | 6 => "tag"
  | 7 => "primitives"
  | t => "invalid major type " ++ toString t

/-- Source: `type SimpleType uint8` with its thirteen constants, in source order. -/
inductive SimpleType where
  | InvalidType
  | NullType
  | BoolType
  | UintType
  | IntType
  | Float16Type
  | Float32Type
  | Float64Type
  | BytesType
  | TextType
  | ArrayType
  | MapType
  | TagType
  deriving DecidableEq, Repr, Inhabited

/-- Source: `type RawKey string`, the raw encoded bytes of a map key. -/
abbrev RawKey := Bytes

/-- Source: `type Path []RawKey`. -/
abbrev Path := List RawKey

/-- The dynamic values the field `Node.val` (of type `any`) ever holds: the nil interface and one
case per Go type that `initType` or an accessor stores. Floats are kept as bit patterns; a nil and
an empty `Array`, `Map` or `[]byte` are not told apart here. `α` is the node type. -/
inductive Val (α : Type) where
  | nil
  | bool (b : Bool)
  | uint64 (v : Nat)
  | int64 (v : Int)
  | float16 (bits : Nat)
  | float32 (bits : Nat)
  | float64 (bits : Nat)
  | bytes (v : Bytes)
  | text (v : Bytes)
  | array (v : List (Option α))
  | map (v : List (RawKey × Option α))

/-- Source: `type Node struct` with the fields `mt`, `st`, `raw` and `val` (of type `any`). -/
inductive Node where
  | mk (mt : MajorType) (st : SimpleType) (raw : RawMessage) (val : Val Node)

/-- Source: `type Array = []*Node`. -/
abbrev Array := List (Option Node)

/-- Source: `type Map = map[RawKey]*Node`, as an association list read at the first entry whose
key equals the one asked for. -/
abbrev Map := List (RawKey × Option Node)

namespace Node

def mt : Node → MajorType
  | .mk mt _ _ _ => mt

def st : Node → SimpleType
  | .mk _ st _ _ => st

def raw : Node → RawMessage
  | .mk _ _ raw _ => raw

def val : Node → Val Node
  | .mk _ _ _ val => val

/-- The assignment `n.val = v`. -/
def setVal : Node → Val Node → Node
  | .mk mt st raw _, v => .mk mt st raw v

/-- The zero value of `Node`. -/
def zero : Node := .mk 0 .InvalidType none .nil

end Node

/-- Go `len` of a byte slice. -/
def RawMessage.len (data : RawMessage) : Nat :=
  match data with
  | none => 0
  | some b => b.length

/-! ## `cbor.go` -/

/-- Source: `GetMajorType`. -/
def GetMajorType (data : RawMessage) : MajorType :=
  match data with
  | none => MajorPrimitives
  | some [] => MajorPrimitives
  | some (b :: _) => (b.val &&& 0xe0) >>> 5

/-! ## `node.go`: classification and construction -/

/-- Source: `(*Node).initType`. -/
def Node.initType (n : Node) : Node :=
  match n.raw with
  | none => .mk MajorPrimitives .InvalidType n.raw n.val
  | some [] => .mk MajorPrimitives .InvalidType n.raw n.val
  | some (b :: _) =>
    let mt := GetMajorType n.raw
    match mt with
    | 0 => .mk mt .UintType n.raw n.val
    | 1 => .mk mt .IntType n.raw n.val
    | 2 => .mk mt .BytesType n.raw n.val
    | 3 => .mk mt .TextType n.raw n.val
    | 4 => .mk mt .ArrayType n.raw n.val
    | 5 => .mk mt .MapType n.raw n.val
    | 6 => .mk mt .TagType n.raw n.val
    | 7 =>
      match b.val &&& 0x1f with
      | 20 => .mk mt .BoolType n.raw (.bool false)
      | 21 => .mk mt .BoolType n.raw (.bool true)
      | 22 => .mk mt .NullType n.raw .nil
      | 23 => .mk mt .NullType n.raw .nil
      | 25 => .mk mt .Float16Type n.raw n.val
      | 26 => .mk mt .Float32Type n.raw n.val
      | 27 => .mk mt .Float64Type n.raw n.val
      | _ => .mk mt .InvalidType n.raw n.val
    | _ => .mk mt n.st n.raw n.val

/-- Source: `newNode`. -/
def newNode (doc : RawMessage) : Node :=
  (Node.mk 0 .InvalidType doc .nil).initType

/-- Source: `Node.MajorType`. -/
def Node.MajorType (n : Node) : MajorType := n.mt

/-- Source: `Node.SimpleType`. -/
def Node.SimpleType (n : Node) : SimpleType := n.st

/-- Source: `Node.Raw`. -/
def Node.Raw (n : Node) : RawMessage := n.raw

/-! ## The external codec -/

/-- The package variables `cborValid` and `cborUnmarshal` (`decMode.Valid` and
`decMode.Unmarshal` of the external library, replaceable through `SetCBOR`). `cborUnmarshal`
is given by one field per target type the package passes to it; each returns the value it leaves
in the (zero-initialised) target together with its error. -/
structure Codec where
  cborValid : RawMessage → Option Err
  unmarshalUint64 : RawMessage → Nat × Option Err
  unmarshalInt64 : RawMessage → Int × Option Err
  unmarshalUint16 : RawMessage → Nat × Option Err
  unmarshalFloat32 : RawMessage → Nat × Option Err
  unmarshalFloat64 : RawMessage → Nat × Option Err
  unmarshalBytes : RawMessage → Bytes × Option Err
  unmarshalString : RawMessage → Bytes × Option Err
  unmarshalArray : RawMessage → Array × Option Err
  unmarshalMap : RawMessage → Map × Option Err
  unmarshalRawTag : RawMessage → (Nat × RawMessage) × Option Err

/-! ## `node.go`: tags -/

/-- Source: `type Tag struct` with the fields `num uint64` and `node *Node`. -/
structure Tag where
  num : Nat
  node : Option Node

/-- Source: `const InvalidTag = 65535`. -/
def InvalidTag : Nat := 65535

/-- Source: `(*Tag).IsValid`. -/
def Tag.IsValid (t : Tag) : Bool :=
  match t.num with
  | 65535 => false
  | 4294967295 => false
  | 18446744073709551615 => false
  | _ => t.node.isSome

/-- Source: `(*Tag).Number`. -/
def Tag.Number (t : Tag) : Nat := t.num

/-- Source: `(*Tag).Node`. -/
def Tag.Node (t : Tag) : Option Node := t.node

/-! ## `node.go`: construction and accessors -/

/-- Source: `NewNode`; the pair is Go's `(*Node, error)`. -/
def NewNode (c : Codec) (doc : RawMessage) : Option Node × Option Err :=
  match c.cborValid doc with
  | some err => (none, some err)
  | none => (some (newNode doc), none)

/-- Source: `Node.IsArray`. -/
def Node.IsArray (n : Node) : Bool := n.st = .ArrayType

/-- Source: `Node.IsMap`. -/
def Node.IsMap (n : Node) : Bool := n.st = .MapType

/-- Source: `(*Node).AsArray`: the array, the receiver after the call, the decoder calls so far. -/
def Node.AsArray (c : Codec) (n : Node) (calls : Nat) : Array × Node × Nat :=
  if n.IsArray then
    match n.val with
    | .array v => (v, n, calls)
    | _ =>
      let val := (c.unmarshalArray n.raw).1
      (val, n.setVal (.array val), calls + 1)
  else ([], n, calls)

/-- Source: `(*Node).AsMap`: the map, the receiver after the call, the decoder calls so far. -/
def Node.AsMap (c : Codec) (n : Node) (calls : Nat) : Map × Node × Nat :=
  if n.IsMap then
    match n.val with
    | .map v => (v, n, calls)
    | _ =>
      let val := (c.unmarshalMap n.raw).1
      (val, n.setVal (.map val), calls + 1)
  else ([], n, calls)

/-- Source: `(*Node).AsTag`: the tag and the decoder calls so far; the receiver is not changed. -/
def Node.AsTag (c : Codec) (n : Node) (calls : Nat) : Tag × Nat :=
  if n.st = .TagType then
    match c.unmarshalRawTag n.raw with
    | (val, none) => (⟨val.1, some (newNode val.2)⟩, calls + 1)
    | (_, some _) => (⟨InvalidTag, some n⟩, calls + 1)
  else (⟨InvalidTag, some n⟩, calls)

/-! ## `path.go`: raw keys -/

/-- Source: `var minus`, the bytes `0x61 0x2d` of the one-character text string of a hyphen. -/
def minus : RawKey := [0x61, 0x2d]

/-- Source: `RawKey.isMinus`. -/
def RawKey.isMinus (k : RawKey) : Bool := k = minus

/-- Source: `RawKey.MajorType`. -/
def RawKey.MajorType (k : RawKey) : MajorType := GetMajorType (some k)

/-- Source: `RawKey.isIndex`. -/
def RawKey.isIndex (k : RawKey) : Bool :=
  if RawKey.isMinus k then true
  else
    match RawKey.MajorType k with
    | 0 => true
    | 1 => true
    | _ => false

/-- Go `fmt` verb `%q` on a string without characters that need escaping. -/
def quoted (s : String) : String := "\"" ++ s ++ "\""

/-- Source: `RawKey.Valid`. -/
def RawKey.Valid (c : Codec) (k : RawKey) : Option Err :=
  match RawKey.MajorType k with
  | 0 => c.cborValid (some k)
  | 1 => c.cborValid (some k)
  | 2 => c.cborValid (some k)
  | 3 => c.cborValid (some k)
  | t => some ("RawKey: " ++ quoted (MajorType.String t) ++ " can not be used as map key")

/-- Source: `RawKey.ToInt`: the integer, the error, the decoder calls so far. -/
def RawKey.ToInt (c : Codec) (k : RawKey) (calls : Nat) : Int × Option Err × Nat :=
  if RawKey.isMinus k then (-1, none, calls)
  else
    match c.unmarshalInt64 (some k) with
    | (_, some err) => (-1, some err, calls + 1)
    | (i, none) => (i, none, calls + 1)

/-- Source: `PathFrom`, its loop unrolled over the keys; `cborMarshal` is the external encoder
and `V` the type of the logical values handed to it. -/
def PathFrom {V : Type} (cborMarshal : V → Bytes × Option Err) (c : Codec) :
    List V → Option Path × Option Err
  | [] => (some [], none)
  | key :: keys =>
    match cborMarshal key with
    | (_, some err) => (none, some err)
    | (data, none) =>
      match RawKey.Valid c data with
      | some err => (none, some err)
      | none =>
        match PathFrom cborMarshal c keys with
        | (some p, none) => (some (data :: p), none)
        | (_, err) => (none, err)

/-! ## `node.go`: path lookup -/

/-- How a call ends: it returns, or it panics (a nil pointer is dereferenced). -/
inductive Run (α : Type) where
  | done (a : α)
  | panic

/-- What `(*Node).Lookup` returns (`node`, `err`), the receiver after the call and the decoder
calls so far. -/
structure LookupResult where
  node : Option Node
  err : Option Err
  recv : Option Node
  calls : Nat

/-- The value pair `(*Node, error)` a call of `Lookup` hands back. -/
def returned : Run LookupResult → Run (Option Node × Option Err)
  | .done r => .done (r.node, r.err)
  | .panic => .panic

/-- The map after the node stored under `k` was mutated through its pointer. -/
def Map.store : Map → RawKey → Option Node → Map
  | [], _, _ => []
  | (k1, v1) :: m, k, v => if k1 = k then (k1, v) :: m else (k1, v1) :: Map.store m k v

/-- Source: `(*Node).Lookup`. The receiver may be nil: reading `n.st` then panics. The child the
call recurses into is mutated in place, so the receiver after the call holds the child after its
own call. In `idx += int64(len(arr))` the sum of a negative `int64` and a length cannot overflow. -/
def Node.Lookup (c : Codec) : Option Node → Path → Nat → Run LookupResult
  | n, [], calls => .done ⟨n, none, n, calls⟩
  | n, k :: rest, calls =>
    match RawKey.Valid c k with
    | some err => .done ⟨none, some err, n, calls⟩
    | none =>
      match n with
      | none => .panic
      | some nd =>
        match nd.st with
        | .ArrayType =>
          if RawKey.isIndex k then
            match RawKey.ToInt c k calls with
            | (_, some err, calls1) => .done ⟨none, some err, n, calls1⟩
            | (idx, none, calls1) =>
              match nd.AsArray c calls1 with
              | (arr, nd1, calls2) =>
                let idx1 : Int := if idx < 0 then idx + arr.length else idx
                if idx1 < 0 ∨ idx1 ≥ arr.length then
                  .done ⟨none, some "Node: index out of range", some nd1, calls2⟩
                else
                  match Node.Lookup c (arr.getD idx1.toNat none) rest calls2 with
                  | .panic => .panic
                  | .done r =>
                    .done ⟨r.node, r.err,
                      some (nd1.setVal (.array (arr.set idx1.toNat r.recv))), r.calls⟩
          else .done ⟨none, some "Node: not found", n, calls⟩
        | .MapType =>
          match nd.AsMap c calls with
          | (obj, nd1, calls1) =>
            match obj.lookup k with
            | some v =>
              match Node.Lookup c v rest calls1 with
              | .panic => .panic
              | .done r =>
                .done ⟨r.node, r.err, some (nd1.setVal (.map (Map.store obj k r.recv))), r.calls⟩
            | none => .done ⟨none, some "Node: not found", some nd1, calls1⟩
        | _ => .done ⟨none, some "Node: not found", n, calls⟩

/-- Source: `(*Node).UnmarshalCBOR`. `append((n.raw)[0:0], data...)` keeps a nil slice nil when
`data` is empty and yields a non-nil slice holding `data` otherwise. -/
def Node.UnmarshalCBOR (n : Option Node) (data : RawMessage) : Option Node × Option Err :=
  match n with
  | none => (none, some "Node: UnmarshalCBOR on nil pointer")
  | some nd =>
    let raw : RawMessage :=
      match nd.raw, data.len with
      | none, 0 => none
      | _, _ => some (data.getD [])
    (some (Node.mk nd.mt nd.st raw nd.val).initType, none)

/-! ## `node.go`: scalar accessors, validity and serialisation

Floating-point values are carried as their bit patterns; the zero value of each float type is
the pattern 0, and equality of two float results is equality of their bit patterns. -/

/-- The two float conversions the accessors go through, on bit patterns: `Float16.Float32()`
of the external float16 package and Go's conversion `float64(x)` of a `float32`. -/
structure FloatOps where
  float16ToFloat32 : Nat → Nat
  float32ToFloat64 : Nat → Nat

/-- Go's conversion `int64(x)` of a `uint64`: the same 64 bits read as two's complement. -/
def int64OfUint64 (v : Nat) : Int :=
  if v % 2 ^ 64 < 2 ^ 63 then ((v % 2 ^ 64 : Nat) : Int) else ((v % 2 ^ 64 : Nat) : Int) - 2 ^ 64

/-- Source: `Node.IsNull`. -/
def Node.IsNull (n : Node) : Bool := n.st = .NullType

/-- Source: `Node.IsBool`. -/
def Node.IsBool (n : Node) : Bool := n.st = .BoolType

/-- Source: `Node.IsUint`. -/
def Node.IsUint (n : Node) : Bool := n.st = .UintType

/-- Source: `Node.IsInt`. -/
def Node.IsInt (n : Node) : Bool := n.st = .UintType || n.st = .IntType

/-- Source: `Node.IsFloat16`. -/
def Node.IsFloat16 (n : Node) : Bool := n.st = .Float16Type

/-- Source: `Node.IsFloat32`. -/
def Node.IsFloat32 (n : Node) : Bool := n.st = .Float32Type

/-- Source: `Node.IsFloat64`. -/
def Node.IsFloat64 (n : Node) : Bool := n.st = .Float64Type

/-- Source: `Node.IsBytes`. -/
def Node.IsBytes (n : Node) : Bool := n.st = .BytesType

/-- Source: `Node.IsText`. -/
def Node.IsText (n : Node) : Bool := n.st = .TextType

/-- Source: `Node.IsTag`. -/
def Node.IsTag (n : Node) : Bool := n.st = .TagType

/-- Source: `(*Node).AsBool`: the type assertion `n.val.(bool)` and nothing else. -/
def Node.AsBool (n : Node) : Bool :=
  match n.val with
  | .bool val => val
  | _ => false

/-- Source: `(*Node).AsUint`: the value, the receiver after the call, the decoder calls so far. -/
def Node.AsUint (c : Codec) (n : Node) (calls : Nat) : Nat × Node × Nat :=
  if n.st = .UintType then
    match n.val with
    | .uint64 v => (v, n, calls)
    | _ =>
      let val := (c.unmarshalUint64 n.raw).1
      (val, n.setVal (.uint64 val), calls + 1)
  else (0, n, calls)

/-- Source: `(*Node).AsInt`. -/
def Node.AsInt (c : Codec) (n : Node) (calls : Nat) : Int × Node × Nat :=
  if n.st = .UintType then
    match n.AsUint c calls with
    | (v, n1, calls1) => (int64OfUint64 v, n1, calls1)
  else if n.st = .IntType then
    match n.val with
    | .int64 v => (v, n, calls)
    | _ =>
      let val := (c.unmarshalInt64 n.raw).1
      (val, n.setVal (.int64 val), calls + 1)
  else (0, n, calls)

/-- Source: `(*Node).AsFloat16`; `float16.Frombits` keeps the 16 bits it is given. -/
def Node.AsFloat16 (c : Codec) (n : Node) (calls : Nat) : Nat × Node × Nat :=
  if n.IsFloat16 then
    match n.val with
    | .float16 v => (v, n, calls)
    | _ =>
      let v16 := (c.unmarshalUint16 n.raw).1
      (v16, n.setVal (.float16 v16), calls + 1)
  else (0, n, calls)

/-- Source: `(*Node).AsFloat32`. -/
def Node.AsFloat32 (f : FloatOps) (c : Codec) (n : Node) (calls : Nat) : Nat × Node × Nat :=
  if n.IsFloat16 then
    match n.AsFloat16 c calls with
    | (v, n1, calls1) => (f.float16ToFloat32 v, n1, calls1)
  else if n.IsFloat32 then
    match n.val with
    | .float32 v => (v, n, calls)
    | _ =>
      let val := (c.unmarshalFloat32 n.raw).1
      (val, n.setVal (.float32 val), calls + 1)
  else (0, n, calls)

/-- Source: `(*Node).AsFloat64`. -/
def Node.AsFloat64 (f : FloatOps) (c : Codec) (n : Node) (calls : Nat) : Nat × Node × Nat :=
  if n.IsFloat16 || n.IsFloat32 then
    match n.AsFloat32 f c calls with
    | (v, n1, calls1) => (f.float32ToFloat64 v, n1, calls1)
  else if n.IsFloat64 then
    match n.val with
    | .float64 v => (v, n, calls)
    | _ =>
      let val := (c.unmarshalFloat64 n.raw).1
      (val, n.setVal (.float64 val), calls + 1)
  else (0, n, calls)

/-- Source: `(*Node).AsBytes`. -/
def Node.AsBytes (c : Codec) (n : Node) (calls : Nat) : Bytes × Node × Nat :=
  if n.IsBytes then
    match n.val with
    | .bytes v => (v, n, calls)
    | _ =>
      let val := (c.unmarshalBytes n.raw).1
      (val, n.setVal (.bytes val), calls + 1)
  else ([], n, calls)

/-- Source: `(*Node).AsText`. -/
def Node.AsText (c : Codec) (n : Node) (calls : Nat) : Bytes × Node × Nat :=
  if n.IsText then
    match n.val with
    | .text v => (v, n, calls)
    | _ =>
      let val := (c.unmarshalString n.raw).1
      (val, n.setVal (.text val), calls + 1)
  else ([], n, calls)

/-- Source: `(*Node).Valid`. -/
def Node.Valid (c : Codec) (n : Option Node) : Option Err :=
  match n with
  | none => some "Node: Valid on nil pointer"
  | some nd =>
    match nd.raw with
    | none => some "Node: Valid on nil pointer"
    | some _ =>
      match c.cborValid nd.raw with
      | some err => some err
      | none => if nd.st = .InvalidType then some "Node: invalid SimpleType" else none

/-- Source: `(*Node).MarshalCBOR`. -/
def Node.MarshalCBOR (n : Option Node) : RawMessage × Option Err :=
  match n with
  | none => (some [0xf6], none)
  | some nd =>
    match nd.raw with
    | none => (some [0xf6], none)
    | some _ => (nd.raw, none)

/-! ## A reference codec for the worked examples

A small decoder for well-formed definite-length items whose head carries its argument in the
first byte (additional information below 24) or in one following byte (24). It stands in for
the external library on the documents of the examples; nothing general is proved from it. -/

/-- Major type, argument and length of the head of the item that starts `b`. -/
def refHead : Bytes → Option (Nat × Nat × Nat)
  | [] => none
  | b :: rest =>
    if b.val % 32 < 24 then some (b.val / 32, b.val % 32, 1)
    else if b.val % 32 = 24 then
      match rest with
      | [] => none
      | a :: _ => some (b.val / 32, a.val, 2)
    else none

/-- Number of bytes taken by the next `pending` items of `b`. -/
def refSkip : Nat → Nat → Bytes → Option Nat
  | _, 0, _ => some 0
  | 0, _ + 1, _ => none
  | fuel + 1, pending + 1, b =>
    match refHead b with
    | none => none
    | some (major, arg, hl) =>
      let payload := if major = 2 ∨ major = 3 then arg else 0
      let more := if major = 4 then arg else if major = 5 then 2 * arg else if major = 6 then 1 else 0
      if hl + payload ≤ b.length then
        (refSkip fuel (pending + more) (b.drop (hl + payload))).map (fun len => hl + payload + len)
      else none

/-- Splits `b` into exactly `count` items. -/
def refSplit : Nat → Bytes → Option (List Bytes)
  | 0, [] => some []
  | 0, _ :: _ => none
  | count + 1, b =>
    match refSkip (b.length + 1) 1 b with
    | none => none
    | some len => (refSplit count (b.drop len)).map (fun items => b.take len :: items)

/-- The head of `raw` when `raw` is exactly one item. -/
def refItem (raw : RawMessage) : Option (Nat × Nat × Nat) :=
  match raw with
  | none => none
  | some b => if refSkip (b.length + 1) 1 b = some b.length then refHead b else none

/-- The library decodes a null or undefined item into a pointer target as the nil pointer, and
any other item by calling `UnmarshalCBOR` with the item's bytes on a fresh `Node`. -/
def refChild (item : Bytes) : Option Node :=
  if item = [0xf6] ∨ item = [0xf7] then none
  else (Node.UnmarshalCBOR (some Node.zero) (some item)).1

/-- Pairs up the items of a map. -/
def refPairs : List Bytes → Map
  | k :: v :: items => (k, refChild v) :: refPairs items
  | _ => []

def refArray (raw : RawMessage) : Array × Option Err :=
  match refItem raw with
  | some (4, count, hl) =>
    match refSplit count ((raw.getD []).drop hl) with
    | some items => (items.map refChild, none)
    | none => ([], some "cbor: malformed array")
  | _ => ([], some "cbor: cannot unmarshal into Go value of type []*node.Node")

def refMap (raw : RawMessage) : Map × Option Err :=
  match refItem raw with
  | some (5, count, hl) =>
    match refSplit (2 * count) ((raw.getD []).drop hl) with
    | some items => (refPairs items, none)
    | none => ([], some "cbor: malformed map")
  | _ => ([], some "cbor: cannot unmarshal into Go value of type map[node.RawKey]*node.Node")

def refInt64 (raw : RawMessage) : Int × Option Err :=
  match refItem raw with
  | some (0, arg, _) => ((arg : Int), none)
  | some (1, arg, _) => (-1 - (arg : Int), none)
  | _ => (0, some "cbor: cannot unmarshal into Go value of type int64")

def refUint64 (raw : RawMessage) : Nat × Option Err :=
  match refItem raw with
  | some (0, arg, _) => (arg, none)
  | _ => (0, some "cbor: cannot unmarshal into Go value of type uint64")

def refString (major : Nat) (raw : RawMessage) : Bytes × Option Err :=
  match refItem raw with
  | some (m, _, hl) =>
    if m = major then ((raw.getD []).drop hl, none)
    else ([], some "cbor: cannot unmarshal into Go value")
  | none => ([], some "cbor: cannot unmarshal into Go value")

def refRawTag (raw : RawMessage) : (Nat × RawMessage) × Option Err :=
  match refItem raw with
  | some (6, number, hl) => ((number, some ((raw.getD []).drop hl)), none)
  | _ => ((0, none), some "cbor: cannot unmarshal into Go value of type cbor.RawTag")

def refValid (raw : RawMessage) : Option Err :=
  match refItem raw with
  | some _ => none
  | none => some "cbor: malformed data item"

def refUnsupported (_ : RawMessage) : Nat × Option Err :=
  (0, some "cbor: floating point is outside the reference codec")

/-- The reference codec. -/
def refCodec : Codec where
  cborValid := refValid
  unmarshalUint64 := refUint64
  unmarshalInt64 := refInt64
  unmarshalUint16 := refUnsupported
  unmarshalFloat32 := refUnsupported
  unmarshalFloat64 := refUnsupported
  unmarshalBytes := refString 2
  unmarshalString := refString 3
  unmarshalArray := refArray
  unmarshalMap := refMap
  unmarshalRawTag := refRawTag

/-- Big-endian value of a byte string. -/
def refBigEndian (b : Bytes) : Nat := b.foldl (fun acc x => acc * 256 + x.val) 0

/-- The decoder `refUint64`, extended to unsigned integers whose head carries an eight-byte
argument (first byte `0x1b`). -/
def refUint64Wide (raw : RawMessage) : Nat × Option Err :=
  match raw with
  | some (b :: arg) =>
    if b = 0x1b ∧ arg.length = 8 then (refBigEndian arg, none) else refUint64 raw
  | _ => refUint64 raw

/-- The reference codec with `refUint64Wide` for the `uint64` target. -/
def refCodecWide : Codec where
  cborValid := refValid
  unmarshalUint64 := refUint64Wide
  unmarshalInt64 := refInt64
  unmarshalUint16 := refUnsupported
  unmarshalFloat32 := refUnsupported
  unmarshalFloat64 := refUnsupported
  unmarshalBytes := refString 2
  unmarshalString := refString 3
  unmarshalArray := refArray
  unmarshalMap := refMap
  unmarshalRawTag := refRawTag

/-- The example document `9223372036854775808`, that is 2^63. -/
def docTwoPow63 : Bytes := [0x1b, 0x80, 0x00, 0x00, 0x00, 0x00, 0x00, 0x00, 0x00]

/-- The encoder on logical values that are handed over already encoded (Go `cbor.RawMessage`
values, which the library writes out as they are). -/
def refMarshal (v : Bytes) : Bytes × Option Err := (v, none)

/-- The example document `[10, 20, 30]`. -/
def docArray : Bytes := [0x83, 0x0a, 0x14, 0x18, 0x1e]

/-- The example document that maps the text a to 1 and the text b to `[2, 3]`. -/
def docMap : Bytes := [0xa2, 0x61, 0x61, 0x01, 0x61, 0x62, 0x82, 0x02, 0x03]

/-! ## Reference table of the classifier, in the words of the specification -/

/-- The specification's table for major type 7, keyed by the low 5 bits of the first byte. -/
def specPrimitiveType (low5 : Nat) : SimpleType :=
  if low5 = 20 ∨ low5 = 21 then .BoolType
  else if low5 = 22 ∨ low5 = 23 then .NullType
  else if low5 = 25 then .Float16Type
  else if low5 = 26 then .Float32Type
  else if low5 = 27 then .Float64Type
  else .InvalidType

/-- The specification's classifier: empty input is (Primitives, Invalid); otherwise the major type
is the top 3 bits of the first byte and the simple type follows the table. -/
def specClassify (raw : Bytes) : MajorType × SimpleType :=
  match raw with
  | [] => (7, .InvalidType)
  | b :: _ =>
    let major := b.val / 32
    let st : SimpleType :=
      if major = 0 then .UintType
      else if major = 1 then .IntType
      else if major = 2 then .BytesType
      else if major = 3 then .TextType
      else if major = 4 then .ArrayType
      else if major = 5 then .MapType
      else if major = 6 then .TagType
      else specPrimitiveType (b.val % 32)
    (major, st)

/-! ## Predicates used to state the properties -/

/-- Two consecutive calls of the accessor `A`, starting from the node `n` with `calls` decoder
calls made so far: the second call returns the value of the first, the first call makes at most
one decoder call, the second makes none and leaves the node as the first call left it. -/
def Memoized {α : Type} (A : Node → Nat → α × Node × Nat) (n : Node) (calls : Nat) : Prop :=
  (A (A n calls).2.1 (A n calls).2.2).1 = (A n calls).1
    ∧ (A n calls).2.2 ≤ calls + 1
    ∧ (A (A n calls).2.1 (A n calls).2.2).2.2 = (A n calls).2.2
    ∧ (A (A n calls).2.1 (A n calls).2.2).2.1 = (A n calls).2.1

/-- Runs `k` on the node and the decoder count that the call `x` returned, when `x` returned
without error; keeps the error or the panic of `x` otherwise. Only the returned pair is kept. -/
def lookupThen (x : Run LookupResult) (k : Option Node → Nat → Run LookupResult) :
    Run (Option Node × Option Err) :=
  match x with
  | .panic => .panic
  | .done r =>
    match r.err with
    | some e => .done (r.node, some e)
    | none => returned (k r.node r.calls)

/-- The key `k` selects a nil pointer in the node `nd`: `nd` is Array-typed, `k` is an index key
that `ToInt` resolves, and the element of `AsArray` at the index (wrapped once when negative) is
the nil pointer; or `nd` is Map-typed and the value `AsMap` holds under `k` is the nil pointer.
`calls` is the decoder count the selection starts from. -/
def selectsNil (c : Codec) (nd : Node) (k : RawKey) (calls : Nat) : Prop :=
  (nd.st = .ArrayType ∧ RawKey.isIndex k = true ∧
      ∃ (i : Int) (calls1 : Nat), RawKey.ToInt c k calls = (i, none, calls1) ∧
        0 ≤ (if i < 0 then i + ((nd.AsArray c calls1).1.length : Int) else i) ∧
        (nd.AsArray c calls1).1[(if i < 0 then i + ((nd.AsArray c calls1).1.length : Int)
          else i).toNat]? = some none)
    ∨ (nd.st = .MapType ∧ (nd.AsMap c calls).1.lookup k = some none)

/-! ## Lemmas -/

theorem newNode_head (b : Fin 256) (rest : Bytes) :
    (newNode (some (b :: rest))).mt = (newNode (some [b])).mt
      ∧ (newNode (some (b :: rest))).st = (newNode (some [b])).st := by
  simp only [newNode, Node.initType, Node.raw, GetMajorType, Node.val, Node.st]
  split <;> try (exact ⟨rfl, rfl⟩)
  split <;> exact ⟨rfl, rfl⟩

set_option maxRecDepth 100000 in
theorem classify_single :
    ∀ b : Fin 256,
      ((newNode (some [b])).mt, (newNode (some [b])).st) = specClassify [b]
      ∧ (newNode (some [b])).mt < 8 := by
  decide

theorem initType_raw (n : Node) : n.initType.raw = n.raw := by
  unfold Node.initType
  split
  · rfl
  · rfl
  · dsimp only
    split <;> try rfl
    split <;> rfl

theorem newNode_raw (doc : RawMessage) : (newNode doc).raw = doc := by
  unfold newNode
  rw [initType_raw]
  rfl

theorem lookup_of_mem (m : Map) (k : RawKey) (h : ∃ v, (k, v) ∈ m) :
    ∃ v, (k, v) ∈ m ∧ m.lookup k = some v := by
  induction m with
  | nil => simp at h
  | cons e m ih =>
    obtain ⟨k1, v1⟩ := e
    by_cases hk : k = k1
    · subst hk
      exact ⟨v1, by simp, by simp [List.lookup]⟩
    · have h2 : ∃ v, (k, v) ∈ m := by
        obtain ⟨v, hv⟩ := h
        simp only [List.mem_cons, Prod.mk.injEq] at hv
        rcases hv with ⟨h1, _⟩ | hv
        · exact absurd h1 hk
        · exact ⟨v, hv⟩
      obtain ⟨v, hv, hl⟩ := ih h2
      refine ⟨v, List.mem_cons_of_mem _ hv, ?_⟩
      have hb : (k == k1) = false := by simpa using hk
      simp only [List.lookup, hb, hl]

theorem lookup_of_not_mem (m : Map) (k : RawKey) (h : ∀ v, (k, v) ∉ m) :
    m.lookup k = none := by
  induction m with
  | nil => rfl
  | cons e m ih =>
    obtain ⟨k1, v1⟩ := e
    have hk : k ≠ k1 := by
      intro hk
      exact h v1 (by simp [hk])
    have hb : (k == k1) = false := by simpa using hk
    have h2 : ∀ v, (k, v) ∉ m := fun v hv => h v (List.mem_cons_of_mem _ hv)
    simp only [List.lookup, hb, ih h2]

set_option maxRecDepth 100000 in
theorem getMajorType_single_lt : ∀ b : Fin 256, GetMajorType (some [b]) < 8 := by
  decide

theorem getMajorType_lt (data : RawMessage) : GetMajorType data < 8 := by
  rcases data with _ | _ | ⟨b, rest⟩
  · decide
  · decide
  · exact getMajorType_single_lt b

theorem valid_of_major_ge (c : Codec) (k : RawKey) (h : 4 ≤ RawKey.MajorType k) :
    RawKey.Valid c k
      = some ("RawKey: " ++ quoted (MajorType.String (RawKey.MajorType k))
          ++ " can not be used as map key") := by
  unfold RawKey.Valid
  generalize RawKey.MajorType k = t at h ⊢
  rcases t with _ | _ | _ | _ | t
  · exact absurd h (by decide)
  · exact absurd h (by decide)
  · exact absurd h (by decide)
  · exact absurd h (by decide)
  · rfl

theorem valid_of_major_le (c : Codec) (k : RawKey) (h : RawKey.MajorType k ≤ 3) :
    RawKey.Valid c k = c.cborValid (some k) := by
  unfold RawKey.Valid
  generalize RawKey.MajorType k = t at h ⊢
  rcases t with _ | _ | _ | _ | t
  · rfl
  · rfl
  · rfl
  · rfl
  · exact absurd h (by simp)

theorem pathFrom_cases {V : Type} (cborMarshal : V → Bytes × Option Err) (c : Codec)
    (keys : List V) :
    (∃ p, PathFrom cborMarshal c keys = (some p, none))
      ∨ (∃ e, PathFrom cborMarshal c keys = (none, some e)) := by
  induction keys with
  | nil => exact Or.inl ⟨[], rfl⟩
  | cons key keys ih =>
    rcases hm : cborMarshal key with ⟨data, _ | e⟩
    · cases hv : RawKey.Valid c data with
      | some e => exact Or.inr ⟨e, by simp only [PathFrom, hm, hv]⟩
      | none =>
        rcases ih with ⟨p, hp⟩ | ⟨e, he⟩
        · exact Or.inl ⟨data :: p, by simp only [PathFrom, hm, hv, hp]⟩
        · exact Or.inr ⟨e, by simp only [PathFrom, hm, hv, he]⟩
    · exact Or.inr ⟨e, by simp only [PathFrom, hm]⟩

theorem pathFrom_fails {V : Type} (cborMarshal : V → Bytes × Option Err) (c : Codec)
    (keys : List V) (h : ∃ key ∈ keys, 4 ≤ RawKey.MajorType (cborMarshal key).1) :
    ∃ e, PathFrom cborMarshal c keys = (none, some e) := by
  induction keys with
  | nil => simp at h
  | cons key keys ih =>
    rcases hm : cborMarshal key with ⟨data, _ | e⟩
    · cases hv : RawKey.Valid c data with
      | some e => exact ⟨e, by simp only [PathFrom, hm, hv]⟩
      | none =>
        have h2 : ∃ key ∈ keys, 4 ≤ RawKey.MajorType (cborMarshal key).1 := by
          obtain ⟨key2, hmem, hk⟩ := h
          rcases List.mem_cons.mp hmem with heq | hmem
          · subst heq
            rw [hm] at hk
            rw [valid_of_major_ge c data hk] at hv
            exact absurd hv (by simp)
          · exact ⟨key2, hmem, hk⟩
        obtain ⟨e, he⟩ := ih h2
        exact ⟨e, by simp only [PathFrom, hm, hv, he]⟩
    · exact ⟨e, by simp only [PathFrom, hm]⟩

theorem pathFrom_valid {V : Type} (cborMarshal : V → Bytes × Option Err) (c : Codec)
    (keys : List V) (p : Path) (h : PathFrom cborMarshal c keys = (some p, none)) :
    ∀ k ∈ p, RawKey.Valid c k = none := by
  induction keys generalizing p with
  | nil =>
    simp only [PathFrom, Prod.mk.injEq, Option.some.injEq, and_true] at h
    subst h
    simp
  | cons key keys ih =>
    rcases hm : cborMarshal key with ⟨data, _ | e⟩
    · cases hv : RawKey.Valid c data with
      | some e => simp [PathFrom, hm, hv] at h
      | none =>
        rcases pathFrom_cases cborMarshal c keys with ⟨q, hq⟩ | ⟨e, he⟩
        · simp only [PathFrom, hm, hv, hq, Prod.mk.injEq, Option.some.injEq, and_true] at h
          subst h
          intro k hk
          rcases List.mem_cons.mp hk with heq | hmem
          · rw [heq]; exact hv
          · exact ih q hq k hmem
        · simp [PathFrom, hm, hv, he] at h
    · simp [PathFrom, hm] at h

theorem initType_val_nil (n : Node) (h : n.val = .nil) :
    n.initType.val = .nil ∨ n.initType.st = .BoolType := by
  unfold Node.initType
  split
  · exact Or.inl h
  · exact Or.inl h
  · dsimp only
    split <;> try exact Or.inl h
    split <;> first
      | exact Or.inl h
      | exact Or.inl rfl
      | exact Or.inr rfl

theorem newNode_val (doc : RawMessage) :
    (newNode doc).val = .nil ∨ (newNode doc).st = .BoolType :=
  initType_val_nil (Node.mk 0 .InvalidType doc .nil) rfl

theorem memo_AsUint (c : Codec) (n : Node) (calls : Nat) : Memoized (Node.AsUint c) n calls := by
  obtain ⟨mt, st, raw, val⟩ := n
  unfold Memoized Node.AsUint
  by_cases h : st = .UintType
  · cases val <;> simp [h, Node.st, Node.val, Node.setVal]
  · simp [h, Node.st]

theorem memo_AsInt (c : Codec) (n : Node) (calls : Nat) : Memoized (Node.AsInt c) n calls := by
  obtain ⟨mt, st, raw, val⟩ := n
  unfold Memoized Node.AsInt Node.AsUint
  by_cases h : st = .UintType
  · cases val <;> simp [h, Node.st, Node.val, Node.setVal]
  · by_cases h2 : st = .IntType
    · cases val <;> simp [h2, Node.st, Node.val, Node.setVal]
    · simp [h, h2, Node.st]

theorem memo_AsFloat16 (c : Codec) (n : Node) (calls : Nat) :
    Memoized (Node.AsFloat16 c) n calls := by
  obtain ⟨mt, st, raw, val⟩ := n
  unfold Memoized Node.AsFloat16
  by_cases h : st = .Float16Type
  · cases val <;> simp [h, Node.st, Node.val, Node.setVal, Node.IsFloat16]
  · simp [h, Node.st, Node.IsFloat16]

theorem memo_AsFloat32 (f : FloatOps) (c : Codec) (n : Node) (calls : Nat) :
    Memoized (Node.AsFloat32 f c) n calls := by
  obtain ⟨mt, st, raw, val⟩ := n
  unfold Memoized Node.AsFloat32 Node.AsFloat16
  by_cases h : st = .Float16Type
  · cases val <;> simp [h, Node.st, Node.val, Node.setVal, Node.IsFloat16, Node.IsFloat32]
  · by_cases h2 : st = .Float32Type
    · cases val <;> simp [h2, Node.st, Node.val, Node.setVal, Node.IsFloat16, Node.IsFloat32]
    · simp [h, h2, Node.st, Node.IsFloat16, Node.IsFloat32]

theorem memo_AsFloat64 (f : FloatOps) (c : Codec) (n : Node) (calls : Nat) :
    Memoized (Node.AsFloat64 f c) n calls := by
  obtain ⟨mt, st, raw, val⟩ := n
  unfold Memoized Node.AsFloat64 Node.AsFloat32 Node.AsFloat16
  by_cases h : st = .Float16Type
  · cases val <;>
      simp [h, Node.st, Node.val, Node.setVal, Node.IsFloat16, Node.IsFloat32, Node.IsFloat64]
  · by_cases h2 : st = .Float32Type
    · cases val <;>
        simp [h2, Node.st, Node.val, Node.setVal, Node.IsFloat16, Node.IsFloat32, Node.IsFloat64]
    · by_cases h3 : st = .Float64Type
      · cases val <;>
          simp [h3, Node.st, Node.val, Node.setVal, Node.IsFloat16, Node.IsFloat32,
            Node.IsFloat64]
      · simp [h, h2, h3, Node.st, Node.IsFloat16, Node.IsFloat32, Node.IsFloat64]

theorem memo_AsBytes (c : Codec) (n : Node) (calls : Nat) : Memoized (Node.AsBytes c) n calls := by
  obtain ⟨mt, st, raw, val⟩ := n
  unfold Memoized Node.AsBytes
  by_cases h : st = .BytesType
  · cases val <;> simp [h, Node.st, Node.val, Node.setVal, Node.IsBytes]
  · simp [h, Node.st, Node.IsBytes]

theorem memo_AsText (c : Codec) (n : Node) (calls : Nat) : Memoized (Node.AsText c) n calls := by
  obtain ⟨mt, st, raw, val⟩ := n
  unfold Memoized Node.AsText
  by_cases h : st = .TextType
  · cases val <;> simp [h, Node.st, Node.val, Node.setVal, Node.IsText]
  · simp [h, Node.st, Node.IsText]

theorem memo_AsArray (c : Codec) (n : Node) (calls : Nat) : Memoized (Node.AsArray c) n calls := by
  obtain ⟨mt, st, raw, val⟩ := n
  unfold Memoized Node.AsArray
  by_cases h : st = .ArrayType
  · cases val <;> simp [h, Node.st, Node.val, Node.setVal, Node.IsArray]
  · simp [h, Node.st, Node.IsArray]

theorem memo_AsMap (c : Codec) (n : Node) (calls : Nat) : Memoized (Node.AsMap c) n calls := by
  obtain ⟨mt, st, raw, val⟩ := n
  unfold Memoized Node.AsMap
  by_cases h : st = .MapType
  · cases val <;> simp [h, Node.st, Node.val, Node.setVal, Node.IsMap]
  · simp [h, Node.st, Node.IsMap]

theorem int64OfUint64_small (v : Nat) (h : v < 2 ^ 63) : int64OfUint64 v = (v : Int) := by
  have h64 : v % 2 ^ 64 = v := Nat.mod_eq_of_lt (by omega)
  unfold int64OfUint64
  rw [h64, if_pos h]

theorem int64OfUint64_large (v : Nat) (h1 : 2 ^ 63 ≤ v) (h2 : v < 2 ^ 64) :
    int64OfUint64 v = (v : Int) - 2 ^ 64 := by
  have h64 : v % 2 ^ 64 = v := Nat.mod_eq_of_lt h2
  unfold int64OfUint64
  rw [h64, if_neg (by omega)]

theorem asInt_of_uint (c : Codec) (n : Node) (calls : Nat) (hst : n.st = .UintType) :
    n.AsInt c calls
      = (int64OfUint64 (n.AsUint c calls).1, (n.AsUint c calls).2.1, (n.AsUint c calls).2.2) := by
  simp only [Node.AsInt, hst, if_true]

theorem initType_empty (n : Node) (h : n.raw.len = 0) : n.initType.st = .InvalidType := by
  unfold Node.initType
  split
  · rfl
  · rfl
  · rename_i b rest hraw
    rw [hraw] at h
    simp [RawMessage.len] at h

theorem valid_of_invalidType (c : Codec) (n : Node) (h : n.st = .InvalidType) :
    Node.Valid c (some n) ≠ none := by
  obtain ⟨mt, st, raw, val⟩ := n
  simp only [Node.st] at h
  subst h
  rcases raw with _ | b
  · simp [Node.Valid, Node.raw]
  · cases hv : c.cborValid (some b) with
    | none => simp [Node.Valid, Node.raw, Node.st, hv]
    | some e => simp [Node.Valid, Node.raw, hv]

theorem valid_of_classified (c : Codec) (n : Node) (h1 : n.raw.len ≠ 0)
    (h2 : n.st ≠ .InvalidType) : Node.Valid c (some n) = c.cborValid n.raw := by
  obtain ⟨mt, st, raw, val⟩ := n
  simp only [Node.st, Node.raw] at h1 h2
  rcases raw with _ | b
  · simp [RawMessage.len] at h1
  · cases hv : c.cborValid (some b) with
    | none => simp [Node.Valid, Node.raw, Node.st, hv, h2]
    | some e => simp [Node.Valid, Node.raw, hv]

theorem unmarshal_empty_raw_len (n : Node) (data : RawMessage) (h : data.len = 0) :
    (Node.mk n.mt n.st
      (match n.raw, data.len with
        | none, 0 => none
        | _, _ => some (data.getD []))
      n.val).raw.len = 0 := by
  have hd : data.getD [] = [] := by
    rcases data with _ | b
    · rfl
    · simpa [RawMessage.len] using h
  rw [h, hd]
  cases n.raw <;> rfl

theorem newNode_classify (raw : RawMessage) :
    ((newNode raw).mt, (newNode raw).st) = specClassify (raw.getD []) := by
  rcases raw with _ | _ | ⟨b, rest⟩
  · decide
  · decide
  · have h1 := newNode_head b rest
    have h2 := (classify_single b).1
    simp only [Option.getD_some]
    rw [h1.1, h1.2]
    exact h2

theorem newNode_of_NewNode (c : Codec) (b : RawMessage) (n : Node)
    (h : NewNode c b = (some n, none)) : n = newNode b ∧ c.cborValid b = none := by
  unfold NewNode at h
  cases hv : c.cborValid b with
  | some e => simp [hv] at h
  | none =>
    simp only [hv, Prod.mk.injEq, Option.some.injEq, and_true] at h
    exact ⟨h.symm, rfl⟩

theorem lookup_append (c : Codec) (q : Path) :
    ∀ (p : Path) (n : Option Node) (calls : Nat),
      returned (Node.Lookup c n (p ++ q) calls)
        = lookupThen (Node.Lookup c n p calls) (fun m calls1 => Node.Lookup c m q calls1) := by
  intro p
  induction p with
  | nil =>
    intro n calls
    simp only [List.nil_append, Node.Lookup, lookupThen]
  | cons k rest ih =>
    intro n calls
    rw [List.cons_append]
    cases hv : RawKey.Valid c k with
    | some e => simp only [Node.Lookup, hv, returned, lookupThen]
    | none =>
      cases n with
      | none => simp only [Node.Lookup, hv, returned, lookupThen]
      | some nd =>
        by_cases ha : nd.st = .ArrayType
        · by_cases hi : RawKey.isIndex k = true
          · rcases ht : RawKey.ToInt c k calls with ⟨idx, _ | e, calls1⟩
            · rcases harr : nd.AsArray c calls1 with ⟨arr, nd1, calls2⟩
              simp only [Node.Lookup, hv, ha, hi, ht, harr, if_true]
              generalize (if idx < 0 then idx + (arr.length : Int) else idx) = idx1
              split_ifs with hr
              · simp only [returned, lookupThen]
              · have ih' := ih (arr.getD idx1.toNat none) calls2
                revert ih'
                cases Node.Lookup c (arr.getD idx1.toNat none) (rest ++ q) calls2 <;>
                  cases Node.Lookup c (arr.getD idx1.toNat none) rest calls2 <;>
                  intro ih' <;> exact ih'
            · simp only [Node.Lookup, hv, ha, hi, ht, if_true, returned, lookupThen]
          · simp only [Node.Lookup, hv, ha, hi, returned, lookupThen]
            rfl
        · by_cases hm : nd.st = .MapType
          · rcases hmap : nd.AsMap c calls with ⟨obj, nd1, calls1⟩
            cases hl : obj.lookup k with
            | none => simp only [Node.Lookup, hv, hm, hmap, hl, returned, lookupThen]
            | some v =>
              simp only [Node.Lookup, hv, hm, hmap, hl]
              have ih' := ih v calls1
              revert ih'
              cases Node.Lookup c v (rest ++ q) calls1 <;>
                cases Node.Lookup c v rest calls1 <;>
                intro ih' <;> exact ih'
          · simp only [Node.Lookup, hv, returned, lookupThen]

theorem lookup_not_both (c : Codec) :
    ∀ (p : Path) (n : Option Node) (calls : Nat) (r : LookupResult),
      Node.Lookup c n p calls = .done r → r.err ≠ none → r.node = none := by
  intro p
  induction p with
  | nil =>
    intro n calls r h he
    simp only [Node.Lookup, Run.done.injEq] at h
    subst h
    exact absurd rfl he
  | cons k rest ih =>
    intro n calls r h he
    cases hv : RawKey.Valid c k with
    | some e =>
      simp only [Node.Lookup, hv, Run.done.injEq] at h
      subst h
      rfl
    | none =>
      cases n with
      | none => simp [Node.Lookup, hv] at h
      | some nd =>
        by_cases ha : nd.st = .ArrayType
        · by_cases hi : RawKey.isIndex k = true
          · rcases ht : RawKey.ToInt c k calls with ⟨idx, _ | e, calls1⟩
            · rcases harr : nd.AsArray c calls1 with ⟨arr, nd1, calls2⟩
              simp only [Node.Lookup, hv, ha, hi, ht, harr, if_true] at h
              generalize (if idx < 0 then idx + (arr.length : Int) else idx) = idx1 at h
              split_ifs at h with hr
              · simp only [Run.done.injEq] at h
                subst h
                rfl
              · split at h
                · simp at h
                · rename_i r1 hc
                  simp only [Run.done.injEq] at h
                  subst h
                  exact ih _ _ r1 hc he
            · simp only [Node.Lookup, hv, ha, hi, ht, if_true, Run.done.injEq] at h
              subst h
              rfl
          · simp only [Node.Lookup, hv, ha, hi, Run.done.injEq] at h
            have h2 : r = ⟨none, some "Node: not found", some nd, calls⟩ := by
              simpa using h.symm
            subst h2
            rfl
        · by_cases hm : nd.st = .MapType
          · rcases hmap : nd.AsMap c calls with ⟨obj, nd1, calls1⟩
            cases hl : obj.lookup k with
            | none =>
              simp only [Node.Lookup, hv, hm, hmap, hl, Run.done.injEq] at h
              subst h
              rfl
            | some v =>
              simp only [Node.Lookup, hv, hm, hmap, hl] at h
              split at h
              · simp at h
              · rename_i r1 hc
                simp only [Run.done.injEq] at h
                subst h
                exact ih _ _ r1 hc he
          · simp only [Node.Lookup, hv, Run.done.injEq] at h
            subst h
            rfl

theorem lookup_panic_prefix (c : Codec) :
    ∀ (p : Path) (n : Option Node) (calls : Nat),
      Node.Lookup c n p calls = .panic →
      ∃ (p1 : Path) (k : RawKey) (p2 : Path) (r : LookupResult),
        p = p1 ++ k :: p2 ∧ Node.Lookup c n p1 calls = .done r ∧ r.err = none ∧ r.node = none
          ∧ RawKey.Valid c k = none := by
  intro p
  induction p with
  | nil =>
    intro n calls h
    simp [Node.Lookup] at h
  | cons k rest ih =>
    intro n calls h
    cases hv : RawKey.Valid c k with
    | some e => simp [Node.Lookup, hv] at h
    | none =>
      cases n with
      | none => exact ⟨[], k, rest, ⟨none, none, none, calls⟩, rfl, rfl, rfl, rfl, hv⟩
      | some nd =>
        by_cases ha : nd.st = .ArrayType
        · by_cases hi : RawKey.isIndex k = true
          · rcases ht : RawKey.ToInt c k calls with ⟨idx, _ | e, calls1⟩
            · rcases harr : nd.AsArray c calls1 with ⟨arr, nd1, calls2⟩
              simp only [Node.Lookup, hv, ha, hi, ht, harr, if_true] at h
              generalize hidx1 : (if idx < 0 then idx + (arr.length : Int) else idx) = idx1 at h
              split_ifs at h with hr
              split at h
              · rename_i hc
                obtain ⟨p1, k1, p2, r, hp, hl, he, hn, hk⟩ := ih _ _ hc
                refine ⟨k :: p1, k1, p2,
                  ⟨r.node, r.err, some (nd1.setVal (.array (arr.set idx1.toNat r.recv))), r.calls⟩,
                  by rw [hp]; rfl, ?_, he, hn, hk⟩
                simp only [Node.Lookup, hv, ha, hi, ht, harr, if_true, hidx1, hr, if_false, hl]
              · simp at h
            · simp [Node.Lookup, hv, ha, hi, ht] at h
          · simp [Node.Lookup, hv, ha, hi] at h
        · by_cases hm : nd.st = .MapType
          · rcases hmap : nd.AsMap c calls with ⟨obj, nd1, calls1⟩
            cases hl : obj.lookup k with
            | none => simp [Node.Lookup, hv, hm, hmap, hl] at h
            | some v =>
              simp only [Node.Lookup, hv, hm, hmap, hl] at h
              split at h
              · rename_i hc
                obtain ⟨p1, k1, p2, r, hp, hl1, he, hn, hk⟩ := ih _ _ hc
                refine ⟨k :: p1, k1, p2,
                  ⟨r.node, r.err, some (nd1.setVal (.map (Map.store obj k r.recv))), r.calls⟩,
                  by rw [hp]; rfl, ?_, he, hn, hk⟩
                simp only [Node.Lookup, hv, hm, hmap, hl, hl1]
              · simp at h
          · simp [Node.Lookup, hv] at h

theorem lookup_nil_result (c : Codec) :
    ∀ (p : Path) (n : Option Node) (calls : Nat) (r : LookupResult),
      Node.Lookup c n p calls = .done r → r.err = none → r.node = none →
      (p = [] ∧ n = none)
        ∨ ∃ (p1 : Path) (k : RawKey) (r1 : LookupResult) (nd : Node),
            p = p1 ++ [k] ∧ Node.Lookup c n p1 calls = .done r1 ∧ r1.err = none
              ∧ r1.node = some nd ∧ selectsNil c nd k r1.calls := by
  intro p
  induction p with
  | nil =>
    intro n calls r h he hn
    simp only [Node.Lookup, Run.done.injEq] at h
    subst h
    exact Or.inl ⟨rfl, hn⟩
  | cons k rest ih =>
    intro n calls r h he hn
    right
    cases hv : RawKey.Valid c k with
    | some e =>
      simp only [Node.Lookup, hv, Run.done.injEq] at h
      subst h
      simp at he
    | none =>
      cases n with
      | none => simp [Node.Lookup, hv] at h
      | some nd =>
        by_cases ha : nd.st = .ArrayType
        · by_cases hi : RawKey.isIndex k = true
          · rcases ht : RawKey.ToInt c k calls with ⟨idx, _ | e, calls1⟩
            · rcases harr : nd.AsArray c calls1 with ⟨arr, nd1, calls2⟩
              simp only [Node.Lookup, hv, ha, hi, ht, harr, if_true] at h
              generalize hidx1 : (if idx < 0 then idx + (arr.length : Int) else idx) = idx1 at h
              split_ifs at h with hr
              · simp only [Run.done.injEq] at h
                subst h
                simp at he
              · split at h
                · simp at h
                · rename_i r0 hc
                  simp only [Run.done.injEq] at h
                  subst h
                  rcases ih _ _ r0 hc he hn with ⟨hrest, hchild⟩ | ⟨p1, k1, r1, nd2, hp, hl, he1, hn1, hs⟩
                  · subst hrest
                    refine ⟨[], k, ⟨some nd, none, some nd, calls⟩, nd, rfl, rfl, rfl, rfl, ?_⟩
                    left
                    refine ⟨ha, hi, idx, calls1, ht, ?_⟩
                    have h0 : 0 ≤ idx1 := by omega
                    have hlt : idx1.toNat < arr.length := by omega
                    rw [harr]
                    dsimp only
                    rw [hidx1]
                    refine ⟨h0, ?_⟩
                    rw [List.getElem?_eq_getElem hlt]
                    rw [List.getD_eq_getElem?_getD, List.getElem?_eq_getElem hlt] at hchild
                    simpa using hchild
                  · refine ⟨k :: p1, k1,
                      ⟨r1.node, r1.err, some (nd1.setVal (.array (arr.set idx1.toNat r1.recv))),
                        r1.calls⟩, nd2, by rw [hp]; rfl, ?_, he1, hn1, hs⟩
                    simp only [Node.Lookup, hv, ha, hi, ht, harr, if_true, hidx1, hr, if_false, hl]
            · simp only [Node.Lookup, hv, ha, hi, ht, if_true, Run.done.injEq] at h
              subst h
              simp at he
          · simp only [Node.Lookup, hv, ha, hi, Run.done.injEq] at h
            have h2 : r = ⟨none, some "Node: not found", some nd, calls⟩ := by
              simpa using h.symm
            subst h2
            simp at he
        · by_cases hm : nd.st = .MapType
          · rcases hmap : nd.AsMap c calls with ⟨obj, nd1, calls1⟩
            cases hl : obj.lookup k with
            | none =>
              simp only [Node.Lookup, hv, hm, hmap, hl, Run.done.injEq] at h
              subst h
              simp at he
            | some v =>
              simp only [Node.Lookup, hv, hm, hmap, hl] at h
              split at h
              · simp at h
              · rename_i r0 hc
                simp only [Run.done.injEq] at h
                subst h
                rcases ih _ _ r0 hc he hn with ⟨hrest, hchild⟩ | ⟨p1, k1, r1, nd2, hp, hl1, he1, hn1, hs⟩
                · subst hrest
                  subst hchild
                  refine ⟨[], k, ⟨some nd, none, some nd, calls⟩, nd, rfl, rfl, rfl, rfl, ?_⟩
                  right
                  refine ⟨hm, ?_⟩
                  rw [hmap]
                  exact hl
                · refine ⟨k :: p1, k1,
                    ⟨r1.node, r1.err, some (nd1.setVal (.map (Map.store obj k r1.recv))),
                      r1.calls⟩, nd2, by rw [hp]; rfl, ?_, he1, hn1, hs⟩
                  simp only [Node.Lookup, hv, hm, hmap, hl, hl1]
          · simp only [Node.Lookup, hv, Run.done.injEq] at h
            subst h
            simp at he

/-! ## Properties of the package -/

/-- C1: classification is total and equals the reference table. For every byte sequence `raw`
(nil included) the node built over it has the major and simple type of the specification's
classifier: (Primitives, Invalid) on empty input, otherwise the top 3 bits of the first byte and
the simple type of the table; the major type is always in 0..7. -/
theorem C1_classification_matches_table (raw : RawMessage) :
    ((newNode raw).MajorType, (newNode raw).SimpleType) = specClassify (raw.getD [])
      ∧ (newNode raw).MajorType < 8 := by
  rcases raw with _ | _ | ⟨b, rest⟩
  · decide
  · decide
  · have h1 := newNode_head b rest
    have h2 := classify_single b
    simp only [Node.MajorType, Node.SimpleType, Option.getD_some]
    rw [h1.1, h1.2]
    exact h2

/-- C2: round trip. `NewNode(b)` succeeds exactly when `cborValid` accepts `b`; when it rejects
`b` with `e`, `NewNode` returns no node and `e`; when `NewNode(b)` returns the node `n`, then
`n.Raw()` is `b`, and `NewNode(n.Raw())` succeeds with a node whose `Raw()` is `n.Raw()`. -/
theorem C2_newNode_round_trip (c : Codec) (b : RawMessage) :
    ((∃ n, NewNode c b = (some n, none)) ↔ c.cborValid b = none)
      ∧ (∀ e, c.cborValid b = some e → NewNode c b = (none, some e))
      ∧ (∀ n, NewNode c b = (some n, none) →
          n.Raw = b ∧ ∃ n2, NewNode c n.Raw = (some n2, none) ∧ n2.Raw = n.Raw) := by
  unfold NewNode
  cases hv : c.cborValid b with
  | some e => simp
  | none =>
    simp only [Prod.mk.injEq, Option.some.injEq, and_true, exists_eq', true_iff, true_and]
    refine ⟨fun e he => by simp at he, ?_⟩
    intro n hn
    subst hn
    simp only [Node.Raw, newNode_raw, hv]
    simp [newNode_raw]

/-- Witness of C2 on the document `[10, 20, 30]` with the reference codec. -/
theorem C2_newNode_round_trip_witness :
    NewNode refCodec (some docArray) = (some (newNode (some docArray)), none)
      ∧ (newNode (some docArray)).Raw = some docArray
      ∧ ∃ n2, NewNode refCodec (newNode (some docArray)).Raw = (some n2, none)
          ∧ n2.Raw = (newNode (some docArray)).Raw :=
  ⟨rfl, ((C2_newNode_round_trip refCodec (some docArray)).2.2 _ rfl).1,
    ((C2_newNode_round_trip refCodec (some docArray)).2.2 _ rfl).2⟩

/-- C3: array indexing in `Lookup`. On an Array-typed node, with a valid index key whose
`ToInt` is `i` and with `arr` the array `AsArray` gives (`L` elements): for `0 ≤ i < L` the call
returns what `Lookup` of `arr[i]` on the rest of the path returns; for `-L ≤ i < 0` what `Lookup`
of `arr[i+L]` returns; for `i ≥ L` or `i < -L` it fails with the index-out-of-range error. On
`[10, 20, 30]`, path `[-1]` gives 30, `[-3]` gives 10 and `[-4]` is out of range. -/
theorem C3_lookup_array_index :
    (∀ (c : Codec) (n : Node) (k : RawKey) (rest : Path) (calls calls1 : Nat) (i : Int),
      n.SimpleType = .ArrayType → RawKey.Valid c k = none → RawKey.isIndex k = true →
      RawKey.ToInt c k calls = (i, none, calls1) →
      ∀ (arr : Array) (n1 : Node) (calls2 : Nat), n.AsArray c calls1 = (arr, n1, calls2) →
        (0 ≤ i ∧ i < arr.length →
          ∃ child, arr[i.toNat]? = some child ∧
            returned (Node.Lookup c (some n) (k :: rest) calls)
              = returned (Node.Lookup c child rest calls2))
        ∧ (-(arr.length : Int) ≤ i ∧ i < 0 →
          ∃ child, arr[(i + arr.length).toNat]? = some child ∧
            returned (Node.Lookup c (some n) (k :: rest) calls)
              = returned (Node.Lookup c child rest calls2))
        ∧ ((arr.length : Int) ≤ i ∨ i < -(arr.length : Int) →
          Node.Lookup c (some n) (k :: rest) calls
            = .done ⟨none, some "Node: index out of range", some n1, calls2⟩))
    ∧ returned (Node.Lookup refCodec (some (newNode (some docArray))) [[0x20]] 0)
        = .done (some (newNode (some [0x18, 0x1e])), none)
    ∧ returned (Node.Lookup refCodec (some (newNode (some docArray))) [[0x22]] 0)
        = .done (some (newNode (some [0x0a])), none)
    ∧ returned (Node.Lookup refCodec (some (newNode (some docArray))) [[0x23]] 0)
        = .done (none, some "Node: index out of range") := by
  refine ⟨?_, rfl, rfl, rfl⟩
  intro c n k rest calls calls1 i hst hvalid hidx hint arr n1 calls2 harr
  simp only [Node.SimpleType] at hst
  refine ⟨?_, ?_, ?_⟩
  · rintro ⟨h0, h1⟩
    have hlt : i.toNat < arr.length := by omega
    refine ⟨arr[i.toNat], List.getElem?_eq_getElem hlt, ?_⟩
    have hneg : ¬ i < 0 := by omega
    have hge : ¬ (arr.length : Int) ≤ i := by omega
    simp only [Node.Lookup, hvalid, hst, hidx, hint, harr, if_true, hneg, if_false, ge_iff_le,
      hge, or_self, List.getD_eq_getElem?_getD, List.getElem?_eq_getElem hlt, Option.getD_some]
    cases Node.Lookup c arr[i.toNat] rest calls2 <;> rfl
  · rintro ⟨h0, h1⟩
    have hlt : (i + arr.length).toNat < arr.length := by omega
    refine ⟨arr[(i + arr.length).toNat], List.getElem?_eq_getElem hlt, ?_⟩
    have hneg : ¬ i + (arr.length : Int) < 0 := by omega
    have hge : ¬ (arr.length : Int) ≤ i + arr.length := by omega
    simp only [Node.Lookup, hvalid, hst, hidx, hint, harr, if_true, h1, hneg, ge_iff_le,
      hge, or_self, if_false, List.getD_eq_getElem?_getD, List.getElem?_eq_getElem hlt,
      Option.getD_some]
    cases Node.Lookup c arr[(i + arr.length).toNat] rest calls2 <;> rfl
  · intro h
    simp only [Node.Lookup, hvalid, hst, hidx, hint, harr, if_true]
    by_cases hneg : i < 0
    · have hrange : (i + arr.length < 0 ∨ i + arr.length ≥ arr.length) := by omega
      simp only [hneg, if_true, hrange]
    · have hrange : (i < 0 ∨ i ≥ arr.length) := by omega
      rw [if_neg hneg, if_pos hrange]

/-- Witness of C3: the key `-1` against `[10, 20, 30]` resolves to the element at `-1 + 3`. -/
theorem C3_lookup_array_index_witness :
    ∃ child,
      ([some (newNode (some [0x0a])), some (newNode (some [0x14])),
          some (newNode (some [0x18, 0x1e]))] : Array)[((-1 : Int) + (3 : Nat)).toNat]? = some child
        ∧ returned (Node.Lookup refCodec (some (newNode (some docArray))) [[0x20], [0x00]] 0)
            = returned (Node.Lookup refCodec child [[0x00]] 2) :=
  (C3_lookup_array_index.1 refCodec (newNode (some docArray)) [0x20] [[0x00]] 0 1 (-1)
    (by rfl) (by rfl) (by rfl) (by rfl)
    [some (newNode (some [0x0a])), some (newNode (some [0x14])), some (newNode (some [0x18, 0x1e]))]
    ((newNode (some docArray)).setVal (.array [some (newNode (some [0x0a])),
      some (newNode (some [0x14])), some (newNode (some [0x18, 0x1e]))]))
    2 (by rfl)).2.1 ⟨by decide, by decide⟩

/-- C4: map lookup in `Lookup`. On a Map-typed node, with a valid head key `k` and with `m` the
map `AsMap` gives: when `m` has an entry whose key is `k`, the call returns what `Lookup` of
`m[k]` on the rest of the path returns; when it has none, the call fails with the not-found
error. On the map of a to 1 and b to `[2, 3]` the path `[b, 1]` gives the node of 3. -/
theorem C4_lookup_map :
    (∀ (c : Codec) (n : Node) (k : RawKey) (rest : Path) (calls : Nat),
      n.SimpleType = .MapType → RawKey.Valid c k = none →
      ∀ (m : Map) (n1 : Node) (calls1 : Nat), n.AsMap c calls = (m, n1, calls1) →
        ((∃ v, (k, v) ∈ m) →
          ∃ v, (k, v) ∈ m ∧ m.lookup k = some v ∧
            returned (Node.Lookup c (some n) (k :: rest) calls)
              = returned (Node.Lookup c v rest calls1))
        ∧ ((∀ v, (k, v) ∉ m) →
          Node.Lookup c (some n) (k :: rest) calls
            = .done ⟨none, some "Node: not found", some n1, calls1⟩))
    ∧ returned (Node.Lookup refCodec (some (newNode (some docMap))) [[0x61, 0x62], [0x01]] 0)
        = .done (some (newNode (some [0x03])), none) := by
  refine ⟨?_, rfl⟩
  intro c n k rest calls hst hvalid m n1 calls1 hmap
  simp only [Node.SimpleType] at hst
  refine ⟨?_, ?_⟩
  · intro h
    obtain ⟨v, hv, hl⟩ := lookup_of_mem m k h
    refine ⟨v, hv, hl, ?_⟩
    simp only [Node.Lookup, hvalid, hst, hmap, hl]
    cases Node.Lookup c v rest calls1 <;> rfl
  · intro h
    simp only [Node.Lookup, hvalid, hst, hmap, lookup_of_not_mem m k h]

/-- Witness of C4: the text key b against the map of a to 1 and b to `[2, 3]` resolves to the
entry stored under b. -/
theorem C4_lookup_map_witness :
    ∃ v, (([0x61, 0x62] : RawKey), v) ∈
          ([([0x61, 0x61], some (newNode (some [0x01]))),
            ([0x61, 0x62], some (newNode (some [0x82, 0x02, 0x03])))] : Map)
      ∧ ([([0x61, 0x61], some (newNode (some [0x01]))),
            ([0x61, 0x62], some (newNode (some [0x82, 0x02, 0x03])))] : Map).lookup [0x61, 0x62]
          = some v
      ∧ returned (Node.Lookup refCodec (some (newNode (some docMap))) [[0x61, 0x62], [0x01]] 0)
          = returned (Node.Lookup refCodec v [[0x01]] 1) :=
  (C4_lookup_map.1 refCodec (newNode (some docMap)) [0x61, 0x62] [[0x01]] 0 (by rfl) (by rfl)
    [([0x61, 0x61], some (newNode (some [0x01]))),
      ([0x61, 0x62], some (newNode (some [0x82, 0x02, 0x03])))]
    ((newNode (some docMap)).setVal (.map [([0x61, 0x61], some (newNode (some [0x01]))),
      ([0x61, 0x62], some (newNode (some [0x82, 0x02, 0x03])))]))
    1 (by rfl)).1 ⟨some (newNode (some [0x82, 0x02, 0x03])), by simp⟩

/-- C5: type mismatch in `Lookup`. With a valid head key, `Lookup` returns no node and the
not-found error when the node is neither Array- nor Map-typed, and when it is Array-typed and the
key is not an index key; the receiver is left as it was and no decoder call is made. A key of
major type byte string, or of major type text string other than `minus`, is not an index key. -/
theorem C5_lookup_type_mismatch (c : Codec) (n : Node) (k : RawKey) (rest : Path) (calls : Nat)
    (hvalid : RawKey.Valid c k = none)
    (h : (n.SimpleType ≠ .ArrayType ∧ n.SimpleType ≠ .MapType)
      ∨ (n.SimpleType = .ArrayType ∧ RawKey.isIndex k = false)) :
    Node.Lookup c (some n) (k :: rest) calls
        = .done ⟨none, some "Node: not found", some n, calls⟩
      ∧ ∀ k2 : RawKey,
          (RawKey.MajorType k2 = MajorByteString
            ∨ (RawKey.MajorType k2 = MajorTextString ∧ k2 ≠ minus)) →
          RawKey.isIndex k2 = false := by
  constructor
  · simp only [Node.SimpleType] at h
    rcases h with ⟨h1, h2⟩ | ⟨h1, h2⟩
    · simp only [Node.Lookup, hvalid]
    · simp only [Node.Lookup, hvalid, h1, h2, Bool.false_eq_true, if_false]
  · intro k2 h2
    have hm : RawKey.isMinus k2 = false := by
      rcases h2 with h2 | ⟨_, h2⟩
      · simp only [RawKey.isMinus, decide_eq_false_iff_not]
        intro hk
        rw [hk] at h2
        revert h2
        decide
      · simpa [RawKey.isMinus] using h2
    simp only [RawKey.isIndex, hm]
    rcases h2 with h2 | ⟨h2, _⟩ <;> rw [h2] <;> rfl

/-- Witness of C5: the text key a against the array `[10, 20, 30]`, and against the
integer 10. -/
theorem C5_lookup_type_mismatch_witness :
    Node.Lookup refCodec (some (newNode (some docArray))) [[0x61, 0x61]] 0
        = .done ⟨none, some "Node: not found", some (newNode (some docArray)), 0⟩
      ∧ Node.Lookup refCodec (some (newNode (some [0x0a]))) [[0x61, 0x61]] 0
        = .done ⟨none, some "Node: not found", some (newNode (some [0x0a])), 0⟩ :=
  ⟨(C5_lookup_type_mismatch refCodec (newNode (some docArray)) [0x61, 0x61] [] 0 (by rfl)
      (Or.inr ⟨by rfl, by rfl⟩)).1,
    (C5_lookup_type_mismatch refCodec (newNode (some [0x0a])) [0x61, 0x61] [] 0 (by rfl)
      (Or.inl ⟨by decide, by decide⟩)).1⟩

/-- C6: `Lookup` with the empty path is the identity. For every receiver (a node of any simple
type, or even the nil pointer) it returns the receiver and no error, leaves the receiver as it
was and makes no decoder call. -/
theorem C6_lookup_empty_path (c : Codec) (n : Option Node) (calls : Nat) :
    Node.Lookup c n [] calls = .done ⟨n, none, n, calls⟩ := by
  rfl

/-- C7: `Lookup` rejects an invalid head key. When `p[0].Valid()` fails with `e`, `Lookup`
returns no node and exactly `e`, whatever the receiver is; the receiver is left as it was and no
decoder call is made. -/
theorem C7_lookup_invalid_head_key (c : Codec) (n : Option Node) (k : RawKey) (rest : Path)
    (calls : Nat) (e : Err) (h : RawKey.Valid c k = some e) :
    Node.Lookup c n (k :: rest) calls = .done ⟨none, some e, n, calls⟩ := by
  simp only [Node.Lookup, h]

/-- Witness of C7: an array used as key against the document `[10, 20, 30]`. -/
theorem C7_lookup_invalid_head_key_witness :
    RawKey.Valid refCodec [0x80] = some "RawKey: \"array\" can not be used as map key"
      ∧ Node.Lookup refCodec (some (newNode (some docArray))) [[0x80], [0x00]] 0
          = .done ⟨none, some "RawKey: \"array\" can not be used as map key",
              some (newNode (some docArray)), 0⟩ :=
  ⟨rfl, C7_lookup_invalid_head_key refCodec _ [0x80] [[0x00]] 0 _ rfl⟩

/-- C8: tag validity. `IsValid` is true exactly when the tag's node is not nil and its number
is none of 65535, 4294967295 and 18446744073709551615; a tag numbered 65535 is invalid whatever
its node, and a tag numbered 0 over a node is valid. -/
theorem C8_tag_validity (t : Tag) :
    (t.IsValid = true ↔
        (t.Node ≠ none ∧ t.Number ≠ 65535 ∧ t.Number ≠ 4294967295
          ∧ t.Number ≠ 18446744073709551615))
      ∧ (∀ node : Option Node, Tag.IsValid ⟨65535, node⟩ = false)
      ∧ (∀ n : Node, Tag.IsValid ⟨0, some n⟩ = true) := by
  refine ⟨?_, fun _ => rfl, fun _ => rfl⟩
  obtain ⟨num, node⟩ := t
  simp only [Tag.IsValid, Tag.Node, Tag.Number]
  split <;> simp_all [Option.isSome_iff_ne_none]

/-- C9: `AsTag` degrades to a sentinel. When the node is not Tag-typed, or is Tag-typed and the
decoder fails, `AsTag` returns a tag whose number is 65535, whose node is the receiver itself and
which is not valid; when the node is Tag-typed and the decoder gives `(number, content)`, it
returns a tag with that number over a node whose `Raw()` is `content`. -/
theorem C9_asTag_sentinel (c : Codec) (n : Node) (calls : Nat) :
    ((n.SimpleType ≠ .TagType
        ∨ (n.SimpleType = .TagType ∧ (c.unmarshalRawTag n.raw).2 ≠ none)) →
      (n.AsTag c calls).1.Number = 65535 ∧ (n.AsTag c calls).1.Node = some n
        ∧ (n.AsTag c calls).1.IsValid = false)
    ∧ (∀ (number : Nat) (content : RawMessage),
        n.SimpleType = .TagType → c.unmarshalRawTag n.raw = ((number, content), none) →
        (n.AsTag c calls).1.Number = number
          ∧ ∃ m, (n.AsTag c calls).1.Node = some m ∧ m.Raw = content) := by
  simp only [Node.SimpleType]
  constructor
  · rintro (h | ⟨h1, h2⟩)
    · simp only [Node.AsTag, h, if_false]
      exact ⟨rfl, rfl, rfl⟩
    · simp only [Node.AsTag, h1, if_true]
      rcases hd : c.unmarshalRawTag n.raw with ⟨val, _ | e⟩
      · rw [hd] at h2
        exact absurd rfl h2
      · exact ⟨rfl, rfl, rfl⟩
  · intro number content hst hd
    simp only [Node.AsTag, hst, if_true, hd]
    exact ⟨rfl, newNode content, rfl, newNode_raw content⟩

/-- Witness of C9: the integer 10 is not a tag; the item `1(10)` decodes to tag 1 over 10. -/
theorem C9_asTag_sentinel_witness :
    ((newNode (some [0x0a])).AsTag refCodec 0).1.Number = 65535
      ∧ ((newNode (some [0x0a])).AsTag refCodec 0).1.Node = some (newNode (some [0x0a]))
      ∧ ((newNode (some [0x0a])).AsTag refCodec 0).1.IsValid = false
      ∧ ((newNode (some [0xc1, 0x0a])).AsTag refCodec 0).1.Number = 1
      ∧ ∃ m, ((newNode (some [0xc1, 0x0a])).AsTag refCodec 0).1.Node = some m
          ∧ m.Raw = some [0x0a] :=
  ⟨((C9_asTag_sentinel refCodec (newNode (some [0x0a])) 0).1 (Or.inl (by decide))).1,
    ((C9_asTag_sentinel refCodec (newNode (some [0x0a])) 0).1 (Or.inl (by decide))).2.1,
    ((C9_asTag_sentinel refCodec (newNode (some [0x0a])) 0).1 (Or.inl (by decide))).2.2,
    ((C9_asTag_sentinel refCodec (newNode (some [0xc1, 0x0a])) 0).2 1 (some [0x0a])
      (by rfl) (by rfl)).1,
    ((C9_asTag_sentinel refCodec (newNode (some [0xc1, 0x0a])) 0).2 1 (some [0x0a])
      (by rfl) (by rfl)).2⟩

/-- C10: key validity. `Valid` fails on an empty key and on a key whose first byte has major
type 4..7, with an error that does not depend on `cborValid`; on a key of major type 0..3 it
returns exactly what `cborValid` returns on the key's bytes. `PathFrom` returns no path and an
error as soon as one logical value encodes to bytes of major type 4..7, and every key of a path
that `PathFrom` returns passes `Valid`. -/
theorem C10_key_validity :
    (∀ (c : Codec) (k : RawKey), (k = [] ∨ 4 ≤ RawKey.MajorType k) →
        RawKey.MajorType k ≤ 7
        ∧ RawKey.Valid c k
          = some ("RawKey: " ++ quoted (MajorType.String (RawKey.MajorType k))
              ++ " can not be used as map key"))
    ∧ (∀ (c : Codec) (k : RawKey), RawKey.MajorType k ≤ 3 →
        RawKey.Valid c k = c.cborValid (some k))
    ∧ (∀ (V : Type) (cborMarshal : V → Bytes × Option Err) (c : Codec) (keys : List V),
        (∃ key ∈ keys, 4 ≤ RawKey.MajorType (cborMarshal key).1) →
        ∃ e, PathFrom cborMarshal c keys = (none, some e))
    ∧ (∀ (V : Type) (cborMarshal : V → Bytes × Option Err) (c : Codec) (keys : List V)
        (p : Path), PathFrom cborMarshal c keys = (some p, none) →
        ∀ k ∈ p, RawKey.Valid c k = none) := by
  refine ⟨?_, valid_of_major_le, fun V m c keys => pathFrom_fails m c keys,
    fun V m c keys => pathFrom_valid m c keys⟩
  intro c k h
  have h4 : 4 ≤ RawKey.MajorType k := by
    rcases h with h | h
    · subst h
      decide
    · exact h
  exact ⟨Nat.le_of_lt_succ (getMajorType_lt (some k)), valid_of_major_ge c k h4⟩

/-- Witness of C10: an array is refused as key, `PathFrom` fails on a list holding a map, and
the keys of the path built from 1 and the text b are valid. -/
theorem C10_key_validity_witness :
    RawKey.Valid refCodec [0x80] = some "RawKey: \"array\" can not be used as map key"
      ∧ (∃ e, PathFrom refMarshal refCodec [[0x01], [0xa0]] = (none, some e))
      ∧ ∀ k ∈ ([[0x01], [0x61, 0x62]] : Path), RawKey.Valid refCodec k = none :=
  ⟨(C10_key_validity.1 refCodec [0x80] (Or.inr (by decide))).2,
    C10_key_validity.2.2.1 Bytes refMarshal refCodec [[0x01], [0xa0]]
      ⟨[0xa0], by simp, by decide⟩,
    C10_key_validity.2.2.2 Bytes refMarshal refCodec [[0x01], [0x61, 0x62]] _ (by rfl)⟩

/-- C11: accessors are total and silent on type mismatch. When the simple type of a node does
not match the accessor (the widenings of `AsInt`, `AsFloat32` and `AsFloat64` counting as
matches), each of `AsUint`, `AsInt`, `AsFloat16`, `AsFloat32`, `AsFloat64`, `AsBytes`, `AsText`,
`AsArray` and `AsMap` returns the zero value of its type, makes no decoder call and leaves the
node as it was; this holds for every node. `AsBool` makes no decoder call and changes nothing by
construction, and on a node built by `newNode` (the constructor behind `NewNode`) whose simple
type is not Bool it returns false. -/
theorem C11_accessors_silent_on_mismatch (f : FloatOps) (c : Codec) (n : Node) (calls : Nat) :
    (n.SimpleType ≠ .UintType → n.AsUint c calls = (0, n, calls))
      ∧ (n.SimpleType ≠ .UintType → n.SimpleType ≠ .IntType → n.AsInt c calls = (0, n, calls))
      ∧ (n.SimpleType ≠ .Float16Type → n.AsFloat16 c calls = (0, n, calls))
      ∧ (n.SimpleType ≠ .Float16Type → n.SimpleType ≠ .Float32Type →
          n.AsFloat32 f c calls = (0, n, calls))
      ∧ (n.SimpleType ≠ .Float16Type → n.SimpleType ≠ .Float32Type →
          n.SimpleType ≠ .Float64Type → n.AsFloat64 f c calls = (0, n, calls))
      ∧ (n.SimpleType ≠ .BytesType → n.AsBytes c calls = ([], n, calls))
      ∧ (n.SimpleType ≠ .TextType → n.AsText c calls = ([], n, calls))
      ∧ (n.SimpleType ≠ .ArrayType → n.AsArray c calls = ([], n, calls))
      ∧ (n.SimpleType ≠ .MapType → n.AsMap c calls = ([], n, calls))
      ∧ (∀ doc : RawMessage, (newNode doc).SimpleType ≠ .BoolType →
          (newNode doc).AsBool = false) := by
  simp only [Node.SimpleType]
  refine ⟨?_, ?_, ?_, ?_, ?_, ?_, ?_, ?_, ?_, ?_⟩
  · intro h
    simp [Node.AsUint, h]
  · intro h1 h2
    simp [Node.AsInt, h1, h2]
  · intro h
    simp [Node.AsFloat16, Node.IsFloat16, h]
  · intro h1 h2
    simp [Node.AsFloat32, Node.IsFloat16, Node.IsFloat32, h1, h2]
  · intro h1 h2 h3
    simp [Node.AsFloat64, Node.IsFloat16, Node.IsFloat32, Node.IsFloat64, h1, h2, h3]
  · intro h
    simp [Node.AsBytes, Node.IsBytes, h]
  · intro h
    simp [Node.AsText, Node.IsText, h]
  · intro h
    simp [Node.AsArray, Node.IsArray, h]
  · intro h
    simp [Node.AsMap, Node.IsMap, h]
  · intro doc h
    rcases newNode_val doc with hv | hv
    · simp only [Node.AsBool, hv]
    · exact absurd hv h

/-- Witness of C11: the integer 10 asked for as bytes, as an array and as a float, and the
array `[10, 20, 30]` asked for as an unsigned integer; the float conversions play no part. -/
theorem C11_accessors_silent_on_mismatch_witness :
    (newNode (some [0x0a])).AsBytes refCodec 0 = ([], newNode (some [0x0a]), 0)
      ∧ (newNode (some [0x0a])).AsArray refCodec 0 = ([], newNode (some [0x0a]), 0)
      ∧ (newNode (some [0x0a])).AsFloat64 ⟨id, id⟩ refCodec 0 = (0, newNode (some [0x0a]), 0)
      ∧ (newNode (some docArray)).AsUint refCodec 0 = (0, newNode (some docArray), 0)
      ∧ (newNode (some [0x0a])).AsBool = false :=
  ⟨(C11_accessors_silent_on_mismatch ⟨id, id⟩ refCodec (newNode (some [0x0a])) 0).2.2.2.2.2.1
      (by decide),
    (C11_accessors_silent_on_mismatch ⟨id, id⟩ refCodec (newNode (some [0x0a])) 0).2.2.2.2.2.2.2.1
      (by decide),
    (C11_accessors_silent_on_mismatch ⟨id, id⟩ refCodec (newNode (some [0x0a])) 0).2.2.2.2.1
      (by decide) (by decide) (by decide),
    (C11_accessors_silent_on_mismatch ⟨id, id⟩ refCodec (newNode (some docArray)) 0).1
      (by decide),
    (C11_accessors_silent_on_mismatch ⟨id, id⟩ refCodec (newNode (some docArray)) 0).2.2.2.2.2.2.2.2.2
      (some [0x0a]) (by decide)⟩

/-- C12: memoization of the scalar and container accessors. For every node (so in particular
for one whose type matches the accessor) and each of `AsUint`, `AsInt`, `AsFloat16`,
`AsFloat32`, `AsFloat64`, `AsBytes`, `AsText`, `AsArray` and `AsMap`: the second of two
consecutive calls returns the value of the first, the first makes at most one decoder call and
the second makes none. The value cached is whatever the decoder left in its target, so this
covers a failed first decode. -/
theorem C12_accessors_memoize (f : FloatOps) (c : Codec) (n : Node) (calls : Nat) :
    Memoized (Node.AsUint c) n calls
      ∧ Memoized (Node.AsInt c) n calls
      ∧ Memoized (Node.AsFloat16 c) n calls
      ∧ Memoized (Node.AsFloat32 f c) n calls
      ∧ Memoized (Node.AsFloat64 f c) n calls
      ∧ Memoized (Node.AsBytes c) n calls
      ∧ Memoized (Node.AsText c) n calls
      ∧ Memoized (Node.AsArray c) n calls
      ∧ Memoized (Node.AsMap c) n calls :=
  ⟨memo_AsUint c n calls, memo_AsInt c n calls, memo_AsFloat16 c n calls,
    memo_AsFloat32 f c n calls, memo_AsFloat64 f c n calls, memo_AsBytes c n calls,
    memo_AsText c n calls, memo_AsArray c n calls, memo_AsMap c n calls⟩

/-- Witness of C12: `AsUint` twice on the integer 10 (one decoder call, then none), and twice on
an unsigned integer with a two-byte argument, which the reference codec does not decode: the
zero left in the target is cached and returned again without a decoder call. -/
theorem C12_accessors_memoize_witness :
    Memoized (Node.AsUint refCodec) (newNode (some [0x0a])) 0
      ∧ (newNode (some [0x0a])).AsUint refCodec 0
          = (10, (newNode (some [0x0a])).setVal (.uint64 10), 1)
      ∧ ((newNode (some [0x0a])).setVal (.uint64 10)).AsUint refCodec 1
          = (10, (newNode (some [0x0a])).setVal (.uint64 10), 1)
      ∧ Memoized (Node.AsUint refCodec) (newNode (some [0x19, 0x01, 0x00])) 0
      ∧ (refCodec.unmarshalUint64 (some [0x19, 0x01, 0x00])).2 ≠ none
      ∧ (newNode (some [0x19, 0x01, 0x00])).AsUint refCodec 0
          = (0, (newNode (some [0x19, 0x01, 0x00])).setVal (.uint64 0), 1)
      ∧ ((newNode (some [0x19, 0x01, 0x00])).setVal (.uint64 0)).AsUint refCodec 1
          = (0, (newNode (some [0x19, 0x01, 0x00])).setVal (.uint64 0), 1) :=
  ⟨(C12_accessors_memoize ⟨id, id⟩ refCodec (newNode (some [0x0a])) 0).1, by rfl, by rfl,
    (C12_accessors_memoize ⟨id, id⟩ refCodec (newNode (some [0x19, 0x01, 0x00])) 0).1,
    by decide, by rfl, by rfl⟩

/-- C13, as stated, fails: on the item `1(10)` decoding succeeds, yet the second call of
`AsTag` makes a decoder call of its own (the count goes from 1 to 2), so `AsTag` does not return
a cached value. -/
theorem C13_asTag_memoizes_counterexample :
    (newNode (some [0xc1, 0x0a])).SimpleType = .TagType
      ∧ refCodec.unmarshalRawTag (newNode (some [0xc1, 0x0a])).raw = ((1, some [0x0a]), none)
      ∧ ((newNode (some [0xc1, 0x0a])).AsTag refCodec 0).2 = 1
      ∧ ((newNode (some [0xc1, 0x0a])).AsTag refCodec
            ((newNode (some [0xc1, 0x0a])).AsTag refCodec 0).2).2 = 2
      ∧ ¬ (∀ (c : Codec) (n : Node) (calls : Nat), n.SimpleType = .TagType →
            (c.unmarshalRawTag n.raw).2 = none →
            (n.AsTag c (n.AsTag c calls).2).2 = (n.AsTag c calls).2) := by
  refine ⟨by rfl, by rfl, by rfl, by rfl, ?_⟩
  intro h
  have h2 := h refCodec (newNode (some [0xc1, 0x0a])) 0 (by rfl) (by rfl)
  revert h2
  decide

/-- C13, amended: `AsTag` does not memoize. On a Tag-typed node on which the decoder gives
`(number, content)`, every call of `AsTag` makes exactly one decoder call and returns the tag
`number` over a node freshly built on `content`; the receiver, its cache included, is not
touched, so a second call decodes again and returns an equal tag. -/
theorem C13_asTag_decodes_every_call (c : Codec) (n : Node) (calls : Nat) (number : Nat)
    (content : RawMessage) (hst : n.SimpleType = .TagType)
    (hdec : c.unmarshalRawTag n.raw = ((number, content), none)) :
    n.AsTag c calls = (⟨number, some (newNode content)⟩, calls + 1)
      ∧ n.AsTag c (n.AsTag c calls).2 = (⟨number, some (newNode content)⟩, calls + 2) := by
  simp only [Node.SimpleType] at hst
  simp only [Node.AsTag, hst, if_true, hdec, and_self]

/-- Witness of the amended C13 on the item `1(10)`. -/
theorem C13_asTag_decodes_every_call_witness :
    (newNode (some [0xc1, 0x0a])).AsTag refCodec 0
        = (⟨1, some (newNode (some [0x0a]))⟩, 1)
      ∧ (newNode (some [0xc1, 0x0a])).AsTag refCodec
          ((newNode (some [0xc1, 0x0a])).AsTag refCodec 0).2
        = (⟨1, some (newNode (some [0x0a]))⟩, 2) :=
  C13_asTag_decodes_every_call refCodec (newNode (some [0xc1, 0x0a])) 0 1 (some [0x0a])
    (by rfl) (by rfl)

/-- C14, as stated, fails: on the unsigned integer 2^63 `AsUint` is 9223372036854775808 and
`AsInt` is -9223372036854775808, which is negative and not equal to it. -/
theorem C14_uint_to_int_counterexample :
    (newNode (some docTwoPow63)).SimpleType = .UintType
      ∧ ((newNode (some docTwoPow63)).AsUint refCodecWide 0).1 = 9223372036854775808
      ∧ ((newNode (some docTwoPow63)).AsInt refCodecWide 0).1 = -9223372036854775808
      ∧ ¬ (∀ (c : Codec) (n : Node) (calls : Nat), n.SimpleType = .UintType →
            (n.AsUint c calls).1 < 2 ^ 64 →
            0 ≤ (n.AsInt c calls).1 ∧ (n.AsInt c calls).1 = ((n.AsUint c calls).1 : Int)) := by
  refine ⟨by rfl, by rfl, by rfl, ?_⟩
  intro h
  have h2 := (h refCodecWide (newNode (some docTwoPow63)) 0 (by rfl) (by decide)).1
  revert h2
  decide

/-- C14, amended: on a Uint-typed node `AsInt` is the conversion `int64(AsUint())`, with the
cache and the decoder calls of `AsUint`. When the unsigned value is below 2^63, `AsInt` is
non-negative and numerically equal to `AsUint`; when it is 2^63 or more (and below 2^64),
`AsInt` is `AsUint` minus 2^64, a negative number. -/
theorem C14_uint_to_int_widening (c : Codec) (n : Node) (calls : Nat)
    (hst : n.SimpleType = .UintType) :
    (n.AsInt c calls).2 = (n.AsUint c calls).2
      ∧ ((n.AsUint c calls).1 < 2 ^ 63 →
          0 ≤ (n.AsInt c calls).1 ∧ (n.AsInt c calls).1 = ((n.AsUint c calls).1 : Int))
      ∧ (2 ^ 63 ≤ (n.AsUint c calls).1 → (n.AsUint c calls).1 < 2 ^ 64 →
          (n.AsInt c calls).1 < 0
            ∧ (n.AsInt c calls).1 = ((n.AsUint c calls).1 : Int) - 2 ^ 64) := by
  simp only [Node.SimpleType] at hst
  rw [asInt_of_uint c n calls hst]
  refine ⟨rfl, ?_, ?_⟩
  · intro h
    rw [int64OfUint64_small _ h]
    exact ⟨Int.ofNat_nonneg _, rfl⟩
  · intro h1 h2
    rw [int64OfUint64_large _ h1 h2]
    refine ⟨?_, rfl⟩
    have : ((n.AsUint c calls).1 : Int) < 2 ^ 64 := by exact_mod_cast h2
    omega

/-- Witness of the amended C14: the integer 10 (equal) and the integer 2^63 (wrapped). -/
theorem C14_uint_to_int_widening_witness :
    (0 ≤ ((newNode (some [0x0a])).AsInt refCodec 0).1
        ∧ ((newNode (some [0x0a])).AsInt refCodec 0).1
            = (((newNode (some [0x0a])).AsUint refCodec 0).1 : Int))
      ∧ (((newNode (some docTwoPow63)).AsInt refCodecWide 0).1 < 0
        ∧ ((newNode (some docTwoPow63)).AsInt refCodecWide 0).1
            = (((newNode (some docTwoPow63)).AsUint refCodecWide 0).1 : Int) - 2 ^ 64) :=
  ⟨(C14_uint_to_int_widening refCodec (newNode (some [0x0a])) 0 (by rfl)).2.1 (by decide),
    (C14_uint_to_int_widening refCodecWide (newNode (some docTwoPow63)) 0 (by rfl)).2.2
      (by decide) (by decide)⟩

/-- C15: `Valid()` rejects empty and unclassifiable nodes. It returns an error, whatever
`cborValid` answers, on the nil pointer, on a node whose raw bytes are nil, on a node whose
simple type is Invalid, and on a node built by `newNode` or re-initialised by `UnmarshalCBOR`
over empty bytes; on a node with non-empty raw bytes and a simple type other than Invalid it
returns exactly what `cborValid` returns on the raw bytes. The zero-value `Node` has simple
type Invalid and `Valid()` fails on it. -/
theorem C15_valid_rejects_empty_and_invalid (c : Codec) (n : Node) :
    Node.Valid c none = some "Node: Valid on nil pointer"
      ∧ (n.raw = none → Node.Valid c (some n) = some "Node: Valid on nil pointer")
      ∧ (n.SimpleType = .InvalidType → Node.Valid c (some n) ≠ none)
      ∧ (∀ doc : RawMessage, doc.len = 0 → Node.Valid c (some (newNode doc)) ≠ none)
      ∧ (∀ data : RawMessage, data.len = 0 →
          Node.Valid c (Node.UnmarshalCBOR (some n) data).1 ≠ none)
      ∧ (n.raw.len ≠ 0 → n.SimpleType ≠ .InvalidType →
          Node.Valid c (some n) = c.cborValid n.raw)
      ∧ Node.zero.SimpleType = .InvalidType
      ∧ Node.Valid c (some Node.zero) = some "Node: Valid on nil pointer" := by
  simp only [Node.SimpleType]
  refine ⟨rfl, ?_, valid_of_invalidType c n, ?_, ?_, ?_, rfl, rfl⟩
  · intro h
    simp only [Node.Valid, h]
  · intro doc h
    exact valid_of_invalidType c _ (initType_empty _ h)
  · intro data h
    exact valid_of_invalidType c _ (initType_empty _ (unmarshal_empty_raw_len n data h))
  · exact valid_of_classified c n

/-- Witness of C15: the zero-value node, the node over no bytes, and the integer 10, on which
`Valid()` is the answer of the reference validator. -/
theorem C15_valid_rejects_empty_and_invalid_witness :
    Node.Valid refCodec (some Node.zero) = some "Node: Valid on nil pointer"
      ∧ Node.Valid refCodec (some (newNode (some []))) ≠ none
      ∧ Node.Valid refCodec (some (newNode (some [0x0a]))) = refCodec.cborValid (some [0x0a])
      ∧ Node.Valid refCodec (some (newNode (some [0x0a]))) = none :=
  ⟨(C15_valid_rejects_empty_and_invalid refCodec Node.zero).2.1 rfl,
    (C15_valid_rejects_empty_and_invalid refCodec Node.zero).2.2.2.1 (some []) rfl,
    (C15_valid_rejects_empty_and_invalid refCodec (newNode (some [0x0a]))).2.2.2.2.2.1
      (by decide) (by decide),
    by rfl⟩

/-- C16, the code at the failing inputs: `MarshalCBOR` tests `n.raw == nil` only. On a node
built by `newNode` over a zero-length non-nil buffer, and on a node built over the integer 1 and
then re-initialised by `UnmarshalCBOR` with empty data, the raw bytes are empty but not nil and
`MarshalCBOR` returns them, zero bytes, instead of the byte `0xf6`. On the nil pointer and on a
node whose raw bytes are nil it does return `0xf6`. -/
theorem C16_marshal_of_empty_raw :
    Node.MarshalCBOR (some (newNode (some []))) = (some [], none)
      ∧ Node.UnmarshalCBOR (some (newNode (some [0x01]))) (some [])
          = (some (Node.mk 7 .InvalidType (some []) .nil), none)
      ∧ Node.MarshalCBOR (Node.UnmarshalCBOR (some (newNode (some [0x01]))) (some [])).1
          = (some [], none)
      ∧ (∀ n : Node, n.raw = some [] → Node.MarshalCBOR (some n) = (some [], none))
      ∧ (∀ n : Node, n.raw = none → Node.MarshalCBOR (some n) = (some [0xf6], none))
      ∧ Node.MarshalCBOR none = (some [0xf6], none) := by
  refine ⟨by rfl, by rfl, by rfl, ?_, ?_, by rfl⟩
  · intro n h
    simp only [Node.MarshalCBOR, h]
  · intro n h
    simp only [Node.MarshalCBOR, h]

/-- C17, the code at the failing inputs: `UnmarshalCBOR` and `initType` leave the cache in
place. A node over the integer 5 caches 5 in `AsUint`; after `UnmarshalCBOR` with the encoding
of 7 its raw bytes are those of 7, its cache still holds 5 and `AsUint` returns 5 without a
decoder call, where a fresh node over the same bytes gives 7. A node over `true`, re-initialised
with the integer 5, is Uint-typed and `AsBool` still returns true, where a fresh node gives
false. -/
theorem C17_stale_cache_after_unmarshal :
    (newNode (some [0x05])).AsUint refCodec 0
        = (5, Node.mk 0 .UintType (some [0x05]) (.uint64 5), 1)
      ∧ Node.UnmarshalCBOR (some (Node.mk 0 .UintType (some [0x05]) (.uint64 5))) (some [0x07])
        = (some (Node.mk 0 .UintType (some [0x07]) (.uint64 5)), none)
      ∧ (Node.mk 0 .UintType (some [0x07]) (.uint64 5)).AsUint refCodec 1
        = (5, Node.mk 0 .UintType (some [0x07]) (.uint64 5), 1)
      ∧ ((newNode (some [0x07])).AsUint refCodec 0).1 = 7
      ∧ refCodec.unmarshalUint64 (some [0x07]) = (7, none)
      ∧ newNode (some [0xf5]) = Node.mk 7 .BoolType (some [0xf5]) (.bool true)
      ∧ Node.UnmarshalCBOR (some (newNode (some [0xf5]))) (some [0x05])
        = (some (Node.mk 0 .UintType (some [0x05]) (.bool true)), none)
      ∧ (Node.mk 0 .UintType (some [0x05]) (.bool true)).AsBool = true
      ∧ (newNode (some [0x05])).AsBool = false := by
  refine ⟨by rfl, by rfl, by rfl, by rfl, by rfl, by rfl, by rfl, by rfl, by rfl⟩

/-- C18, as stated, fails: on `[10, 20, 30]` (three elements) `Lookup` with the head key
`minus` returns the node of 30, which is the existing element at position 2, not position 3. -/
theorem C18_minus_key_counterexample :
    (newNode (some docArray)).SimpleType = .ArrayType
      ∧ ((newNode (some docArray)).AsArray refCodec 0).1
          = [some (newNode (some [0x0a])), some (newNode (some [0x14])),
              some (newNode (some [0x18, 0x1e]))]
      ∧ returned (Node.Lookup refCodec (some (newNode (some docArray))) [minus] 0)
          = .done (some (newNode (some [0x18, 0x1e])), none)
      ∧ ((newNode (some docArray)).AsArray refCodec 0).1[2]?
          = some (some (newNode (some [0x18, 0x1e]))) := by
  refine ⟨by rfl, by rfl, by rfl, by rfl⟩

/-- C18, amended: the key `minus` (bytes `0x61 0x2d`, major type text string) is an index key
and `ToInt` resolves it to -1 without a decoder call. On an Array-typed node whose array has
`L ≥ 1` elements, `Lookup` with the head key `minus` (when `Valid` accepts it) addresses the last
element, position `L - 1`, and continues there with the rest of the path; on an empty array it
fails with the index-out-of-range error. -/
theorem C18_minus_key_is_last_element :
    RawKey.isIndex minus = true
      ∧ RawKey.MajorType minus = MajorTextString
      ∧ (∀ (c : Codec) (calls : Nat), RawKey.ToInt c minus calls = (-1, none, calls))
      ∧ (∀ (c : Codec) (n : Node) (rest : Path) (calls : Nat),
          n.SimpleType = .ArrayType → RawKey.Valid c minus = none →
          ∀ (arr : Array) (n1 : Node) (calls1 : Nat), n.AsArray c calls = (arr, n1, calls1) →
            (1 ≤ arr.length →
              ∃ child, arr[arr.length - 1]? = some child ∧
                returned (Node.Lookup c (some n) (minus :: rest) calls)
                  = returned (Node.Lookup c child rest calls1))
            ∧ (arr.length = 0 →
              Node.Lookup c (some n) (minus :: rest) calls
                = .done ⟨none, some "Node: index out of range", some n1, calls1⟩)) := by
  refine ⟨by rfl, by rfl, fun c calls => by rfl, ?_⟩
  intro c n rest calls hst hvalid arr n1 calls1 harr
  simp only [Node.SimpleType] at hst
  have hidx : RawKey.isIndex minus = true := by rfl
  have hint : RawKey.ToInt c minus calls = (-1, none, calls) := by rfl
  refine ⟨?_, ?_⟩
  · intro hL
    have hlt : arr.length - 1 < arr.length := by omega
    refine ⟨arr[arr.length - 1], List.getElem?_eq_getElem hlt, ?_⟩
    have hneg : (-1 : Int) < 0 := by decide
    have hneg2 : ¬ (-1 : Int) + (arr.length : Int) < 0 := by omega
    have hge : ¬ (arr.length : Int) ≤ -1 + arr.length := by omega
    have hnat : ((-1 : Int) + (arr.length : Int)).toNat = arr.length - 1 := by omega
    simp only [Node.Lookup, hvalid, hst, hidx, hint, harr, if_true, hneg, hneg2, ge_iff_le,
      hge, or_self, if_false, hnat, List.getD_eq_getElem?_getD, List.getElem?_eq_getElem hlt,
      Option.getD_some]
    cases Node.Lookup c arr[arr.length - 1] rest calls1 <;> rfl
  · intro hL
    have hneg : (-1 : Int) < 0 := by decide
    have hrange : (-1 : Int) + (arr.length : Int) < 0 ∨ (-1 : Int) + arr.length ≥ arr.length := by
      omega
    simp only [Node.Lookup, hvalid, hst, hidx, hint, harr, if_true, hneg, hrange]

/-- Witness of the amended C18 on `[10, 20, 30]`: the key `minus` continues at position 2. -/
theorem C18_minus_key_is_last_element_witness :
    ∃ child,
      ([some (newNode (some [0x0a])), some (newNode (some [0x14])),
          some (newNode (some [0x18, 0x1e]))] : Array)[3 - 1]? = some child
        ∧ returned (Node.Lookup refCodec (some (newNode (some docArray))) [minus] 0)
            = returned (Node.Lookup refCodec child [] 1) :=
  (C18_minus_key_is_last_element.2.2.2 refCodec (newNode (some docArray)) [] 0
    (by rfl) (by rfl)
    [some (newNode (some [0x0a])), some (newNode (some [0x14])), some (newNode (some [0x18, 0x1e]))]
    ((newNode (some docArray)).setVal (.array [some (newNode (some [0x0a])),
      some (newNode (some [0x14])), some (newNode (some [0x18, 0x1e]))]))
    1 (by rfl)).1 (by decide)

/-- C19, as stated, fails: the single byte `0xe0` (the simple value 0) is one well-formed
item, `NewNode` accepts it, and the node it returns has simple type Invalid and fails
`Valid()`. -/
theorem C19_validated_node_invalid_counterexample :
    refCodec.cborValid (some [0xe0]) = none
      ∧ NewNode refCodec (some [0xe0]) = (some (newNode (some [0xe0])), none)
      ∧ (newNode (some [0xe0])).SimpleType = .InvalidType
      ∧ Node.Valid refCodec (some (newNode (some [0xe0]))) = some "Node: invalid SimpleType" := by
  refine ⟨by rfl, by rfl, by rfl, by rfl⟩

/-- C19, amended: for every byte sequence `b` that `NewNode` accepts, the node returned has the
simple type of the classifier's table, and its `Valid()` succeeds exactly when that simple type
is not Invalid. The table gives Invalid on empty input and on a first byte of major type 7 whose
low 5 bits are none of 20, 21, 22, 23, 25, 26, 27, well-formed simple values included. -/
theorem C19_validated_node_valid_iff_classified (c : Codec) (b : RawMessage) (n : Node)
    (h : NewNode c b = (some n, none)) :
    (n.MajorType, n.SimpleType) = specClassify (b.getD [])
      ∧ (Node.Valid c (some n) = none ↔ n.SimpleType ≠ .InvalidType) := by
  obtain ⟨hn, hv⟩ := newNode_of_NewNode c b n h
  subst hn
  simp only [Node.MajorType, Node.SimpleType]
  refine ⟨newNode_classify b, ?_, ?_⟩
  · intro hvalid hst
    exact valid_of_invalidType c _ hst hvalid
  · intro hst
    have hlen : (newNode b).raw.len ≠ 0 := by
      intro hlen
      rw [newNode_raw] at hlen
      exact hst (initType_empty _ hlen)
    rw [valid_of_classified c _ hlen hst, newNode_raw]
    exact hv

/-- Witness of the amended C19: the integer 10 is accepted, classified Uint and valid. -/
theorem C19_validated_node_valid_iff_classified_witness :
    ((newNode (some [0x0a])).MajorType, (newNode (some [0x0a])).SimpleType)
        = specClassify [0x0a]
      ∧ (Node.Valid refCodec (some (newNode (some [0x0a]))) = none
          ↔ (newNode (some [0x0a])).SimpleType ≠ .InvalidType) :=
  C19_validated_node_valid_iff_classified refCodec (some [0x0a]) (newNode (some [0x0a]))
    (by rfl)

/-- C20, as stated, fails: the result can be neither a node nor an error. `Lookup` with the
empty path on the nil pointer returns the nil pointer and no error; on the document `[null]`,
whose element the decoder hands back as the nil pointer, the path `[0]` returns the nil pointer
and no error, and the path `[0, 0]` then reads through that nil pointer and panics. -/
theorem C20_lookup_result_counterexample :
    returned (Node.Lookup refCodec none [] 0) = .done (none, none)
      ∧ NewNode refCodec (some [0x81, 0xf6]) = (some (newNode (some [0x81, 0xf6])), none)
      ∧ ((newNode (some [0x81, 0xf6])).AsArray refCodec 0).1 = [none]
      ∧ RawKey.Valid refCodec [0x00] = none
      ∧ returned (Node.Lookup refCodec (some (newNode (some [0x81, 0xf6]))) [[0x00]] 0)
          = .done (none, none)
      ∧ returned (Node.Lookup refCodec (some (newNode (some [0x81, 0xf6]))) [[0x00], [0x00]] 0)
          = .panic := by
  refine ⟨by rfl, by rfl, by rfl, by rfl, by rfl, by rfl⟩

/-- C20, amended: `Lookup` is defined by recursion on the path and composes over concatenation.
If `Lookup` of `p` returns `m` without error, then `Lookup` of `p ++ q` returns what `Lookup`
of `q` on `m` returns (from the decoder count the first call ended with); if `Lookup` of `p`
fails with an error, it returns no node and `Lookup` of `p ++ q` fails with the same error; a
call that returns never gives both a node and an error. `Lookup` returns, rather than panics,
unless a proper prefix of the path addresses a nil pointer (its `Lookup` returns the nil pointer
and no error) and the key after that prefix is valid. A call that returns without error returns
a node other than the nil pointer, unless the receiver is nil and the path empty, or the last
key selects a nil array element or nil map value in the node the rest of the path leads to. -/
theorem C20_lookup_composes (c : Codec) (n : Option Node) (p q : Path) (calls : Nat) :
    (∀ r, Node.Lookup c n p calls = .done r → r.err = none →
        returned (Node.Lookup c n (p ++ q) calls) = returned (Node.Lookup c r.node q r.calls))
      ∧ (∀ r e, Node.Lookup c n p calls = .done r → r.err = some e →
          r.node = none ∧ returned (Node.Lookup c n (p ++ q) calls) = .done (none, some e))
      ∧ (∀ r, Node.Lookup c n p calls = .done r → ¬ (r.node ≠ none ∧ r.err ≠ none))
      ∧ (Node.Lookup c n p calls = .panic →
          ∃ (p1 : Path) (k : RawKey) (p2 : Path) (r : LookupResult),
            p = p1 ++ k :: p2 ∧ Node.Lookup c n p1 calls = .done r ∧ r.err = none
              ∧ r.node = none ∧ RawKey.Valid c k = none)
      ∧ (∀ r, Node.Lookup c n p calls = .done r → r.err = none → r.node = none →
          (p = [] ∧ n = none)
            ∨ ∃ (p1 : Path) (k : RawKey) (r1 : LookupResult) (nd : Node),
                p = p1 ++ [k] ∧ Node.Lookup c n p1 calls = .done r1 ∧ r1.err = none
                  ∧ r1.node = some nd ∧ selectsNil c nd k r1.calls) := by
  have happ := lookup_append c q p n calls
  refine ⟨?_, ?_, ?_, lookup_panic_prefix c p n calls, lookup_nil_result c p n calls⟩
  · intro r hr he
    rw [happ, hr]
    simp only [lookupThen, he]
  · intro r e hr he
    have hnode : r.node = none := lookup_not_both c p n calls r hr (by simp [he])
    refine ⟨hnode, ?_⟩
    rw [happ, hr]
    simp only [lookupThen, he, hnode]
  · intro r hr ⟨h1, h2⟩
    exact h1 (lookup_not_both c p n calls r hr h2)

/-- Witness of the amended C20. On the map of a to 1 and b to `[2, 3]`: the path `[b, 1]` is
the path `[b]` followed by `[1]`, and the path `[a, 1]` fails where the path `[a]` then `[1]`
fails. On the document `[null]`: the path `[0]` returns the nil pointer because the key 0
selects a nil element, and the panic of the path `[0, 0]` comes after a prefix that addresses a
nil pointer. -/
theorem C20_lookup_composes_witness :
    returned (Node.Lookup refCodec (some (newNode (some docMap))) ([[0x61, 0x62]] ++ [[0x01]]) 0)
        = returned (Node.Lookup refCodec (some (newNode (some [0x82, 0x02, 0x03]))) [[0x01]] 1)
      ∧ returned (Node.Lookup refCodec (some (newNode (some docMap))) [[0x61, 0x62], [0x01]] 0)
        = .done (some (newNode (some [0x03])), none)
      ∧ returned (Node.Lookup refCodec (some (newNode (some docMap)))
            ([[0x61, 0x61], [0x01]] ++ [[0x02]]) 0)
        = .done (none, some "Node: not found")
      ∧ (∃ (p1 : Path) (k : RawKey) (p2 : Path) (r : LookupResult),
          ([[0x00], [0x00]] : Path) = p1 ++ k :: p2
            ∧ Node.Lookup refCodec (some (newNode (some [0x81, 0xf6]))) p1 0 = .done r
            ∧ r.err = none ∧ r.node = none ∧ RawKey.Valid refCodec k = none)
      ∧ ((([[0x00]] : Path) = [] ∧ some (newNode (some [0x81, 0xf6])) = none)
          ∨ ∃ (p1 : Path) (k : RawKey) (r1 : LookupResult) (nd : Node),
              ([[0x00]] : Path) = p1 ++ [k]
                ∧ Node.Lookup refCodec (some (newNode (some [0x81, 0xf6]))) p1 0 = .done r1
                ∧ r1.err = none ∧ r1.node = some nd ∧ selectsNil refCodec nd k r1.calls) :=
  ⟨(C20_lookup_composes refCodec (some (newNode (some docMap))) [[0x61, 0x62]] [[0x01]] 0).1
      ⟨some (newNode (some [0x82, 0x02, 0x03])), none,
        some ((newNode (some docMap)).setVal (.map [([0x61, 0x61], some (newNode (some [0x01]))),
          ([0x61, 0x62], some (newNode (some [0x82, 0x02, 0x03])))])), 1⟩
      (by rfl) (by rfl),
    by rfl,
    ((C20_lookup_composes refCodec (some (newNode (some docMap))) [[0x61, 0x61], [0x01]]
      [[0x02]] 0).2.1
      ⟨none, some "Node: not found",
        some ((newNode (some docMap)).setVal (.map [([0x61, 0x61], some (newNode (some [0x01]))),
          ([0x61, 0x62], some (newNode (some [0x82, 0x02, 0x03])))])), 1⟩
      "Node: not found" (by rfl) (by rfl)).2,
    (C20_lookup_composes refCodec (some (newNode (some [0x81, 0xf6]))) [[0x00], [0x00]] [] 0).2.2.2.1
      (by rfl),
    (C20_lookup_composes refCodec (some (newNode (some [0x81, 0xf6]))) [[0x00]] [] 0).2.2.2.2
      ⟨none, none, some ((newNode (some [0x81, 0xf6])).setVal (.array [none])), 2⟩
      (by rfl) rfl rfl⟩

end CborSchema
